import Mathlib

/-
  Verification development for the Mewo build-automation interpreter
  (C sources: error.c, vars.c, parser.c, exec.c).

  The C code is shallowly embedded:
  * C strings are `List Char` (byte strings; the sources are ASCII-agnostic).
  * The IEEE-754 `double` of the variable store is modelled as `Rat`
    (exact rational semantics; floating-point rounding is out of scope and
    no claim below depends on it).  All rationals are built with `mkRat`.
  * `size_t` arithmetic wraps modulo 2^64 where the source can overflow.
  * Allocation never fails in the model (the `ERROR_MEMORY` paths of the
    source are unreachable here).
  * External collaborators (libc `getenv`/`popen`/`system`, the `nob`
    subprocess primitive, the filesystem) are oracles carried in `Env`;
    their contracts follow the code's use and the spec's §4.6 contract.
  * Unbounded loops/recursion of the source (nested interpolation, the
    value parser, the executor with `goto`/`call`) take a fuel argument;
    `none` models non-termination / fuel exhaustion.
-/

namespace Mewo

/-- Byte strings of the C sources. -/
abbrev Str := List Char

/-- Shorthand: the characters of a Lean string literal. -/
def lc (s : String) : Str := s.toList

/-- C `isspace` in the default locale. -/
def isSpaceC (c : Char) : Bool :=
  c = ' ' || c = '\t' || c = '\n' || c = '\x0b' || c = '\x0c' || c = '\r'

/-- The blank characters `' '` and `'\t'` (used by several ad-hoc trims in the source). -/
def isBlank (c : Char) : Bool := c = ' ' || c = '\t'

def isDigitC (c : Char) : Bool := '0' ≤ c && c ≤ '9'

def isAlphaC (c : Char) : Bool := ('a' ≤ c && c ≤ 'z') || ('A' ≤ c && c ≤ 'Z')

/-- `[A-Za-z_]`, the first character of a C-style identifier. -/
def isIdentStart (c : Char) : Bool := isAlphaC c || c = '_'

/-- `[A-Za-z0-9_]`. -/
def isIdentChar (c : Char) : Bool := isAlphaC c || isDigitC c || c = '_'

/-- C `isalnum` (ASCII). -/
def isAlnumC (c : Char) : Bool := isAlphaC c || isDigitC c

/-- Value of a digit character. -/
def digitVal (c : Char) : Nat := c.toNat - '0'.toNat

/-- Decimal value of a digit string (no overflow; used where C accumulates into
unbounded positions of the model). -/
def digitsVal : Str → Nat → Nat
  | [], acc => acc
  | d :: ds, acc => digitsVal ds (acc * 10 + digitVal d)

/-- Decimal digit accumulation on a `size_t`, wrapping modulo 2^64 at every step
(`idx = idx * 10 + (*p - '0')` in `interp_internal`). -/
def digitsValSizeT : Str → Nat → Nat
  | [], acc => acc
  | d :: ds, acc => digitsValSizeT ds ((acc * 10 + digitVal d) % 2 ^ 64)

/-- Decimal rendering of a `Nat` (C `%zu`). -/
def natToDec (n : Nat) : Str := (Nat.repr n).toList

/-- Decimal rendering of an `Int` (C `%d` / `%.0f` on an integral double). -/
def intToDec (n : Int) : Str :=
  if n < 0 then '-' :: natToDec n.natAbs else natToDec n.natAbs

/-- Cast of a C `long long` value to `size_t` (wraps modulo 2^64). -/
def toSizeT (v : Int) : Nat := (v % (2 ^ 64 : Int)).toNat

/-- Model of libc `strtoll`-style integer parsing used by `atoll`: skip
whitespace, optional sign, decimal digits, saturating at the `long long`
range (glibc behaviour on overflow). -/
def atollModel (s : Str) : Int :=
  let s1 := s.dropWhile isSpaceC
  let sgn : Int := if s1.head? = some '-' then -1 else 1
  let s2 := if s1.head? = some '-' || s1.head? = some '+' then s1.tail else s1
  let v : Int := sgn * (digitsVal (s2.takeWhile isDigitC) 0 : Int)
  max (-(2 ^ 63 : Int)) (min v (2 ^ 63 - 1))

/-- Model of `atoi` (saturating at the `int` range, as glibc `strtol` then cast). -/
def atoiModel (s : Str) : Int :=
  let s1 := s.dropWhile isSpaceC
  let sgn : Int := if s1.head? = some '-' then -1 else 1
  let s2 := if s1.head? = some '-' || s1.head? = some '+' then s1.tail else s1
  let v : Int := sgn * (digitsVal (s2.takeWhile isDigitC) 0 : Int)
  max (-(2 ^ 31 : Int)) (min v (2 ^ 31 - 1))

/-- Error kinds of `error.c` (`ERROR_SYNTAX`, `ERROR_RUNTIME`, `ERROR_MEMORY`). -/
inductive EKind where
  | syn
  | runtime
  | memory
deriving DecidableEq, Repr

/-- The global error slot content of `error.c`: kind, message, 1-based line.
Quote characters of the C `snprintf` messages are elided from the modelled
message texts. -/
structure Err where
  kind : EKind
  msg : Str
  line : Nat
deriving DecidableEq, Repr

/-- `VariableType`/`Variable` of vars.c.  `double` is modelled as `Rat`. -/
inductive Variable where
  | num (q : Rat)
  | str (s : Str)
  | vbool (b : Bool)
  | arr (items : List Variable)

/-- `var_clone` of vars.c performs a deep copy; values of the model have no
identity, so a clone is the value itself. -/
def var_clone (v : Variable) : Variable := v

mutual
def variableDecEq : (a b : Variable) → Decidable (a = b)
  | .num a, .num b =>
    match decEq a b with
    | isTrue h => isTrue (by rw [h])
    | isFalse h => isFalse (by intro hc; cases hc; exact h rfl)
  | .str a, .str b =>
    match decEq a b with
    | isTrue h => isTrue (by rw [h])
    | isFalse h => isFalse (by intro hc; cases hc; exact h rfl)
  | .vbool a, .vbool b =>
    match decEq a b with
    | isTrue h => isTrue (by rw [h])
    | isFalse h => isFalse (by intro hc; cases hc; exact h rfl)
  | .arr a, .arr b =>
    match variableListDecEq a b with
    | isTrue h => isTrue (by rw [h])
    | isFalse h => isFalse (by intro hc; cases hc; exact h rfl)
  | .num _, .str _ => isFalse (by intro h; cases h)
  | .num _, .vbool _ => isFalse (by intro h; cases h)
  | .num _, .arr _ => isFalse (by intro h; cases h)
  | .str _, .num _ => isFalse (by intro h; cases h)
  | .str _, .vbool _ => isFalse (by intro h; cases h)
  | .str _, .arr _ => isFalse (by intro h; cases h)
  | .vbool _, .num _ => isFalse (by intro h; cases h)
  | .vbool _, .str _ => isFalse (by intro h; cases h)
  | .vbool _, .arr _ => isFalse (by intro h; cases h)
  | .arr _, .num _ => isFalse (by intro h; cases h)
  | .arr _, .str _ => isFalse (by intro h; cases h)
  | .arr _, .vbool _ => isFalse (by intro h; cases h)

def variableListDecEq : (a b : List Variable) → Decidable (a = b)
  | [], [] => isTrue rfl
  | [], _ :: _ => isFalse (by intro h; cases h)
  | _ :: _, [] => isFalse (by intro h; cases h)
  | a :: as, b :: bs =>
    match variableDecEq a b, variableListDecEq as bs with
    | isTrue h1, isTrue h2 => isTrue (by rw [h1, h2])
    | isFalse h1, _ => isFalse (by intro hc; cases hc; exact h1 rfl)
    | _, isFalse h2 => isFalse (by intro hc; cases hc; exact h2 rfl)
end

instance : DecidableEq Variable := variableDecEq

/-- The variable store `g_variables`: an insertion-ordered association list. -/
abbrev Variables := List (Str × Variable)

/-- `vars_find_index` + `vars_get`: first entry with the given name. -/
def vars_get (vars : Variables) (name : Str) : Option Variable :=
  match vars.find? (fun kv => kv.1 = name) with
  | some kv => some kv.2
  | none => none

def vars_exists (vars : Variables) (name : Str) : Bool :=
  (vars.find? (fun kv => kv.1 = name)).isSome

/-- Replace the value of the first entry with the given name. -/
def vsReplace : Variables → Str → Variable → Variables
  | [], _, _ => []
  | kv :: rest, name, v =>
    if kv.1 = name then (kv.1, v) :: rest else kv :: vsReplace rest name v

/-- `vars_set`: replace the first entry in place if the name exists, else
append. -/
def vars_set (vars : Variables) (name : Str) (v : Variable) : Variables :=
  if vars.any (fun kv => kv.1 = name) then vsReplace vars name v
  else vars ++ [(name, v)]

/-- The feature store `g_features`: an insertion-ordered list of names. -/
abbrev Features := List Str

def feature_exists (fs : Features) (name : Str) : Bool :=
  fs.any (fun n => n = name)

/-- `feature_enable`: append if absent (idempotent). -/
def feature_enable (fs : Features) (name : Str) : Features :=
  if feature_exists fs name then fs else fs ++ [name]

/-- `feature_disable`: remove the first occurrence (a no-op when absent). -/
def feature_disable : Features → Str → Features
  | [], _ => []
  | n :: ns, name => if n = name then ns else n :: feature_disable ns name

/-- Rendering of a rational that is not an integral double below 10^15;
the C source prints `%g` (shortest general form), which is not exactly
representable over `Rat`; the model renders the exact fraction.  No claim
depends on this branch. -/
def ratFracRepr (q : Rat) : Str :=
  intToDec q.num ++ '/' :: natToDec q.den

mutual
/-- `var_to_string` of vars.c: number → `%.0f` when integral and below 10^15
(else general form, see `ratFracRepr`), string → itself, bool →
`true`/`false`, array → elements joined by `,`. -/
def var_to_string : Variable → Str
  | .num q =>
    if q.den = 1 ∧ q.num.natAbs < 10 ^ 15 then intToDec q.num else ratFracRepr q
  | .str s => s
  | .vbool b => if b then lc "true" else lc "false"
  | .arr items => vtsJoin items

/-- The element-joining loop of `var_to_string` on arrays. -/
def vtsJoin : List Variable → Str
  | [] => []
  | [v] => var_to_string v
  | v :: vs => var_to_string v ++ ',' :: vtsJoin vs
end

end Mewo

namespace Mewo

/-- The compile-time platform of exec.c's `#ifdef` chains. -/
inductive OSPlat where
  | windows
  | linux
  | macos
  | other
deriving DecidableEq, Repr

/-- Behaviour of a spawned child process: whether it exited normally
(`WIFEXITED`) and its exit status (`WEXITSTATUS`). -/
structure ChildRes where
  exited : Bool
  status : Nat
deriving DecidableEq, Repr

/-- Oracles for the external collaborators the interpreter calls into:
positional arguments, libc `getenv`/`popen`/`system`, the nob subprocess
primitive, the filesystem, and the compile-time platform facts. -/
structure Env where
  argv : List Str
  getenvF : Str → Option Str
  popenF : Str → Option Str
  fileExistsF : Str → Bool
  runCmd : List Str → ChildRes
  sysCmd : Str → ChildRes
  readFileF : Str → Option Str
  plat : OSPlat
  arch : Str
  distro : Str
  pid : Nat

/-- The process-wide mutable stores of vars.c (`g_variables`, `g_features`,
`g_last_exit_code`, `g_global_shell`), the process working directory, and a
trace of spawned command texts (an observation instrument of the model; one
entry per spawn or dry-run print in `exec_command`). -/
structure Store where
  vars : Variables
  features : Features
  lastExit : Int
  globalShell : Option Str
  cwd : Str
  trace : List Str

def argv_get (env : Env) (i : Nat) : Option Str := env.argv.get? i

/-- The copy loop of the `$${...}` branch of `interp_internal`: copy with
brace depth tracking, consuming (without copying) the brace that closes
depth 0; at end of input everything is copied. -/
def copyBraces : Str → Nat → Str × Str
  | [], _ => ([], [])
  | c :: cs, depth =>
    let d2 := if c = '\x7b' then depth + 1 else if c = '\x7d' then depth - 1 else depth
    if d2 = 0 then ([], cs)
    else
      let pr := copyBraces cs d2
      (c :: pr.1, pr.2)

/-- The scan of `extract_var_expr`: find the brace closing depth 1,
returning the expression before it and the remainder after it; `none` when
the input ends first. -/
def evp : Str → Nat → Option (Str × Str)
  | [], _ => none
  | c :: cs, depth =>
    let d2 := if c = '\x7b' then depth + 1 else if c = '\x7d' then depth - 1 else depth
    if d2 = 0 then some ([], cs)
    else
      match evp cs d2 with
      | some pr => some (c :: pr.1, pr.2)
      | none => none

def extract_var_expr (s : Str) : Option (Str × Str) := evp s 1

def is_valid_identifier : Str → Bool
  | [] => false
  | c :: cs => isIdentStart c && cs.all isIdentChar

/-- Both-side trim over `' '`/`'\t'` (the ad-hoc trims of the `#env`
intrinsic and of `str_trim`-style right trims). -/
def trimBlank (s : Str) : Str :=
  ((s.dropWhile isBlank).reverse.dropWhile isBlank).reverse

/-- The `#len(...)` dispatch of `interp_internal`: `argv` → argument count,
array → element count, string → byte length, other defined → 1, missing → 0. -/
def lenIntrinsic (env : Env) (st : Store) (param : Str) : Nat :=
  if param = lc "argv" then env.argv.length
  else
    match vars_get st.vars param with
    | some (.arr items) => items.length
    | some (.str s) => s.length
    | some _ => 1
    | none => 0

/-- The `#env(NAME[, DEFAULT])` dispatch: split at the first comma, trim
blanks around both parts, look the name up in the process environment. -/
def envIntrinsic (env : Env) (content : Str) : Str :=
  let pre := content.takeWhile (· ≠ ',')
  let name := trimBlank pre
  let dflt := if pre.length = content.length then [] else trimBlank (content.drop (pre.length + 1))
  match env.getenvF name with
  | some v => v
  | none => dflt

/-- The quoted-command scan of the `#exec` dispatch: characters up to the
first unescaped `"` (backslashes included), plus the remainder after it. -/
def scanQuoted : Str → Bool → Option (Str × Str)
  | [], _ => none
  | c :: cs, escaped =>
    if escaped then
      match scanQuoted cs false with
      | some pr => some (c :: pr.1, pr.2)
      | none => none
    else if c = '\\' then
      match scanQuoted cs true with
      | some pr => some (c :: pr.1, pr.2)
      | none => none
    else if c = '"' then some ([], cs)
    else
      match scanQuoted cs false with
      | some pr => some (c :: pr.1, pr.2)
      | none => none

/-- The unescape pass of `#exec`: a backslash followed by another character
is dropped, keeping the next character; a trailing backslash is kept. -/
def unescapeCmd : Str → Str
  | [] => []
  | '\\' :: c :: cs => c :: unescapeCmd cs
  | c :: cs => c :: unescapeCmd cs

/-- The `#exec("cmd"[, shell])` dispatch: parse the quoted command, build
the popen command line (`shell -c "cmd"` when a shell is given), capture at
most 1023 bytes of output, strip one trailing newline. -/
def execIntrinsic (env : Env) (content : Str) (ln : Nat) : Except Err Str :=
  let p1 := content.dropWhile isBlank
  match p1 with
  | '"' :: rest =>
    match scanQuoted rest false with
    | none => .error ⟨.syn, lc "Unterminated quoted command in #exec()", ln⟩
    | some (raw, rest2) =>
      let cmd := unescapeCmd raw
      let p2 := rest2.dropWhile isBlank
      let shell : Option Str :=
        match p2 with
        | ',' :: r =>
          let sh := trimBlank r
          if sh = [] then none else some sh
        | _ => none
      let cmdline : Str :=
        match shell with
        | some sh => sh ++ lc " -c \"" ++ cmd ++ ['"']
        | none => cmd
      match env.popenF cmdline with
      | none => .error ⟨.runtime, lc "Failed to execute command", ln⟩
      | some out =>
        let captured := out.take 1023
        .ok (if captured.getLast? = some '\n' then captured.dropLast else captured)
  | _ => .error ⟨.syn, lc "Expected quoted command in #exec()", ln⟩

/-- The `name[index]` dispatch: split at the first `[`, index via `atoll`
cast to `size_t`; array → element rendering (empty when out of range),
string → single byte (empty when out of range), scalar → string coercion. -/
def bracketAccess (st : Store) (ie : Str) (ln : Nat) : Except Err Str :=
  let name_len := (ie.takeWhile (· ≠ '[')).length
  let var_name := ie.take name_len
  let idx_str := (ie.drop (name_len + 1)).dropLast
  let idx := toSizeT (atollModel idx_str)
  match vars_get st.vars var_name with
  | none => .error ⟨.runtime, lc "Undefined variable: " ++ var_name, ln⟩
  | some (.arr items) =>
    .ok (match items.get? idx with
      | some it => var_to_string it
      | none => [])
  | some (.str s) =>
    .ok (match s.get? idx with
      | some ch => [ch]
      | none => [])
  | some v => .ok (var_to_string v)

/-- The dispatch of `interp_internal` on an already-interpolated `${...}`
expression, in source order: all-digits → positional argument; `argv` →
arguments joined by spaces; `#len` / `#env` / `#exec` intrinsics;
`name[idx]`; otherwise an identifier looked up in the variable store. -/
def dispatchExpr (env : Env) (st : Store) (ln : Nat) (ie : Str) : Except Err Str :=
  if ie ≠ [] ∧ ie.all isDigitC then
    .ok ((argv_get env (toSizeT (atollModel ie))).getD [])
  else if ie = lc "argv" then
    .ok (List.intercalate [' '] env.argv)
  else if (lc "#len(").isPrefixOf ie ∧ ie.getLast? = some ')' then
    .ok (natToDec (lenIntrinsic env st ((ie.drop 5).dropLast)))
  else if (lc "#env(").isPrefixOf ie ∧ ie.getLast? = some ')' then
    .ok (envIntrinsic env ((ie.drop 5).dropLast))
  else if (lc "#exec(").isPrefixOf ie ∧ ie.getLast? = some ')' then
    execIntrinsic env ((ie.drop 6).dropLast) ln
  else if ie.any (· = '[') ∧ ie.getLast? = some ']' then
    bracketAccess st ie ln
  else if ¬ is_valid_identifier ie then
    .error ⟨.syn, lc "Invalid variable name: " ++ ie, ln⟩
  else
    match vars_get st.vars ie with
    | none => .error ⟨.runtime, lc "Undefined variable: " ++ ie, ln⟩
    | some v => .ok (var_to_string v)

/-- Prepend a produced token to the result of interpolating the remainder,
propagating errors and fuel exhaustion. -/
def contMap (out : Str) : Option (Except Err Str) → Option (Except Err Str)
  | none => none
  | some (.error e) => some (.error e)
  | some (.ok s) => some (.ok (out ++ s))

/-- `s` begins with the character `c` (a C `p[i] == c` pointer test). -/
def headIs (s : Str) (c : Char) : Bool := s.head? = some c

/-- `s` begins with a decimal digit. -/
def headDigit (s : Str) : Bool :=
  match s.head? with
  | some d => isDigitC d
  | none => false

/-- Fueled model of `interp_internal` of vars.c.  The scanning branches, in
source order: `$${...}` (literal `${...}`), `$$d` (literal `$d`),
`$digits` (positional argument), `$?` (last exit code), `${expr}`
(recursive interpolation then `dispatchExpr`), otherwise a literal
character.  `none` models fuel exhaustion (cannot occur for
`fuel > input.length`, see `interpF_isSome`). -/
def interpF : Nat → Env → Store → Nat → Str → Option (Except Err Str)
  | 0, _, _, _, _ => none
  | _ + 1, _, _, _, [] => some (.ok [])
  | fuel + 1, env, st, ln, c :: cs =>
    if c = '$' then
      if headIs cs '$' && headIs cs.tail '\x7b' then
        let pr := copyBraces cs.tail.tail 1
        contMap ('$' :: '\x7b' :: (pr.1 ++ ['\x7d'])) (interpF fuel env st ln pr.2)
      else if headIs cs '$' && headDigit cs.tail then
        contMap ('$' :: cs.tail.take 1) (interpF fuel env st ln cs.tail.tail)
      else if headDigit cs then
        contMap ((argv_get env (digitsValSizeT (cs.takeWhile isDigitC) 0)).getD [])
          (interpF fuel env st ln (cs.dropWhile isDigitC))
      else if headIs cs '?' then
        contMap (intToDec st.lastExit) (interpF fuel env st ln cs.tail)
      else if headIs cs '\x7b' then
        match extract_var_expr cs.tail with
        | none => some (.error ⟨.syn, lc "Unterminated $\x7b\x7d expression", ln⟩)
        | some (expr, after) =>
          match interpF fuel env st ln expr with
          | none => none
          | some (.error e) => some (.error e)
          | some (.ok ie) =>
            match dispatchExpr env st ln ie with
            | .error e => some (.error e)
            | .ok out => contMap out (interpF fuel env st ln after)
      else
        contMap ['$'] (interpF fuel env st ln cs)
    else
      contMap [c] (interpF fuel env st ln cs)

/-- Model of `interpolate` of vars.c: `interp_internal` with fuel that always
suffices (`interpF_isSome`); the `getD` default is unreachable. -/
def interpolate (env : Env) (st : Store) (ln : Nat) (s : Str) : Except Err Str :=
  (interpF (s.length + 1) env st ln s).getD (.error ⟨.memory, [], ln⟩)

end Mewo

namespace Mewo

theorem contMap_isSome (out : Str) (r : Option (Except Err Str)) :
    (contMap out r).isSome = r.isSome := by
  cases r with
  | none => rfl
  | some e => cases e <;> rfl

theorem dropWhile_len_le (p : Char → Bool) : ∀ l : Str, (l.dropWhile p).length ≤ l.length := by
  intro l
  induction l with
  | nil => simp
  | cons c cs ih =>
    by_cases h : p c
    · simp only [List.dropWhile_cons, h, if_true, List.length_cons]
      exact Nat.le_succ_of_le ih
    · simp [List.dropWhile_cons, h]

theorem copyBraces_snd_le (s : Str) : ∀ d, ((copyBraces s d).2).length ≤ s.length := by
  induction s with
  | nil => intro d; simp [copyBraces]
  | cons c cs ih =>
    intro d
    simp only [copyBraces]
    generalize (if c = '\x7b' then d + 1 else if c = '\x7d' then d - 1 else d) = d2
    split
    · simp
    · simp only [List.length_cons]
      exact Nat.le_succ_of_le (ih d2)

theorem evp_len : ∀ (s : Str) (d : Nat) (pr : Str × Str), evp s d = some pr →
    pr.1.length + 1 + pr.2.length = s.length := by
  intro s
  induction s with
  | nil => intro d pr h; simp [evp] at h
  | cons c cs ih =>
    intro d pr h
    simp only [evp] at h
    generalize hd2 : (if c = '\x7b' then d + 1 else if c = '\x7d' then d - 1 else d) = d2 at h
    split at h
    · cases h; simp; omega
    · cases hrec : evp cs d2 with
      | none => rw [hrec] at h; cases h
      | some pr2 =>
        rw [hrec] at h
        cases h
        have := ih _ _ hrec
        simp only [List.length_cons]
        omega

theorem interpF_canon : ∀ (fuel : Nat) (env : Env) (st : Store) (ln : Nat) (s : Str),
    s.length < fuel →
    interpF fuel env st ln s = interpF (s.length + 1) env st ln s ∧
      (interpF fuel env st ln s).isSome := by
  intro fuel
  induction fuel using Nat.strong_induction_on with
  | _ fuel ih =>
    intro env st ln s hlen
    match fuel, hlen with
    | n + 1, hlen =>
      match s with
      | [] => simp [interpF]
      | c :: cs =>
        have hcs : cs.length < n := by
          simp only [List.length_cons] at hlen; omega
        have hcanon : ∀ (x : Str), x.length ≤ cs.length →
            interpF n env st ln x = interpF (cs.length + 1) env st ln x ∧
              (interpF n env st ln x).isSome := by
          intro x hx
          have h1 := ih n (by omega) env st ln x (by omega)
          have h2 := ih (cs.length + 1) (by omega) env st ln x (by omega)
          exact ⟨h1.1.trans h2.1.symm, h1.2⟩
        have htail : cs.tail.length ≤ cs.length := by
          rw [List.length_tail]; omega
        have htail2 : cs.tail.tail.length ≤ cs.length := by
          rw [List.length_tail, List.length_tail]; omega
        simp only [interpF, List.length_cons]
        by_cases hc : c = '$'
        · simp only [if_pos hc]
          by_cases h1 : (headIs cs '$' && headIs cs.tail '\x7b') = true
          · simp only [if_pos h1]
            obtain ⟨he, hs⟩ :=
              hcanon _ (le_trans (copyBraces_snd_le cs.tail.tail 1) htail2)
            rw [he]
            refine ⟨rfl, ?_⟩
            rw [contMap_isSome, ← he]
            exact hs
          · simp only [if_neg h1]
            by_cases h2 : (headIs cs '$' && headDigit cs.tail) = true
            · simp only [if_pos h2]
              obtain ⟨he, hs⟩ := hcanon cs.tail.tail htail2
              rw [he]
              refine ⟨rfl, ?_⟩
              rw [contMap_isSome, ← he]
              exact hs
            · simp only [if_neg h2]
              by_cases h3 : headDigit cs = true
              · simp only [if_pos h3]
                obtain ⟨he, hs⟩ := hcanon (cs.dropWhile isDigitC) (dropWhile_len_le _ _)
                rw [he]
                refine ⟨rfl, ?_⟩
                rw [contMap_isSome, ← he]
                exact hs
              · simp only [if_neg h3]
                by_cases h4 : headIs cs '?' = true
                · simp only [if_pos h4]
                  obtain ⟨he, hs⟩ := hcanon cs.tail htail
                  rw [he]
                  refine ⟨rfl, ?_⟩
                  rw [contMap_isSome, ← he]
                  exact hs
                · simp only [if_neg h4]
                  by_cases h5 : headIs cs '\x7b' = true
                  · simp only [if_pos h5]
                    cases hev : extract_var_expr cs.tail with
                    | none => simp [hev]
                    | some pr =>
                      obtain ⟨expr, after⟩ := pr
                      have hl5 : expr.length + 1 + after.length = cs.tail.length := by
                        simpa using evp_len _ _ _ hev
                      rw [List.length_tail] at hl5
                      simp only [hev]
                      obtain ⟨heE, hsE⟩ := hcanon expr (by omega)
                      rw [heE]
                      have hsE2 : (interpF (cs.length + 1) env st ln expr).isSome := by
                        rw [← heE]; exact hsE
                      obtain ⟨v, hv⟩ := Option.isSome_iff_exists.mp hsE2
                      rw [hv]
                      cases v with
                      | error e => exact ⟨rfl, rfl⟩
                      | ok ie =>
                        cases hd : dispatchExpr env st ln ie with
                        | error e => simp [hd]
                        | ok out =>
                          simp only [hd]
                          obtain ⟨heA, hsA⟩ := hcanon after (by omega)
                          rw [heA]
                          refine ⟨rfl, ?_⟩
                          rw [contMap_isSome, ← heA]
                          exact hsA
                  · simp only [if_neg h5]
                    obtain ⟨he, hs⟩ := hcanon cs (le_refl _)
                    rw [he]
                    refine ⟨rfl, ?_⟩
                    rw [contMap_isSome, ← he]
                    exact hs
        · simp only [if_neg hc]
          obtain ⟨he, hs⟩ := hcanon cs (le_refl _)
          rw [he]
          refine ⟨rfl, ?_⟩
          rw [contMap_isSome, ← he]
          exact hs

theorem interpF_isSome (fuel : Nat) (env : Env) (st : Store) (ln : Nat) (s : Str)
    (h : s.length < fuel) : (interpF fuel env st ln s).isSome :=
  (interpF_canon fuel env st ln s h).2

theorem interpF_irrel (f1 f2 : Nat) (env : Env) (st : Store) (ln : Nat) (s : Str)
    (h1 : s.length < f1) (h2 : s.length < f2) :
    interpF f1 env st ln s = interpF f2 env st ln s :=
  (interpF_canon f1 env st ln s h1).1.trans (interpF_canon f2 env st ln s h2).1.symm

/-- Bridge between the fueled scanner and the total `interpolate` wrapper. -/
theorem interpF_eq_interpolate (fuel : Nat) (env : Env) (st : Store) (ln : Nat) (s : Str)
    (h : s.length < fuel) :
    interpF fuel env st ln s = some (interpolate env st ln s) := by
  obtain ⟨r, hr⟩ := Option.isSome_iff_exists.mp
    (interpF_isSome (s.length + 1) env st ln s (by omega))
  rw [interpF_irrel fuel (s.length + 1) env st ln s h (by omega), hr]
  simp [interpolate, hr]

/-- A template without `'$'` scans to itself, with no error, whatever the
stores and oracles are. -/
theorem interpF_no_dollar : ∀ (fuel : Nat) (env : Env) (st : Store) (ln : Nat) (s : Str),
    s.length < fuel → (∀ c ∈ s, c ≠ '$') →
    interpF fuel env st ln s = some (.ok s) := by
  intro fuel
  induction fuel with
  | zero => intro env st ln s h hnd; omega
  | succ n ih =>
    intro env st ln s h hnd
    match s with
    | [] => simp [interpF]
    | c :: cs =>
      have hc : c ≠ '$' := hnd c (by simp)
      simp only [interpF, if_neg hc]
      rw [ih env st ln cs (by simp only [List.length_cons] at h; omega)
        (fun x hx => hnd x (by simp [hx]))]
      rfl

end Mewo

namespace Mewo

/-- The top-level comma scan of `parse_value`: a comma outside quotes at
bracket depth 0 triggers the implicit-array reparse. -/
def hasTopComma : Str → Bool → Char → Int → Bool
  | [], _, _, _ => false
  | c :: cs, false, qc, depth =>
    if c = '"' ∨ c = '\'' then hasTopComma cs true c depth
    else if c = '[' then hasTopComma cs false qc (depth + 1)
    else if c = ']' then hasTopComma cs false qc (depth - 1)
    else if c = ',' ∧ depth = 0 then true
    else hasTopComma cs false qc depth
  | c :: cs, true, qc, depth =>
    if c = qc then hasTopComma cs false qc depth
    else hasTopComma cs true qc depth

/-- The array-element scan of `parse_value`: stop (without consuming) at a
`]` or `,` outside quotes at bracket depth 0. -/
def elemScan : Str → Bool → Char → Nat → Str × Str
  | [], _, _, _ => ([], [])
  | c :: cs, false, qc, depth =>
    if c = '"' ∨ c = '\'' then
      let pr := elemScan cs true c depth
      (c :: pr.1, pr.2)
    else if c = '[' then
      let pr := elemScan cs false qc (depth + 1)
      (c :: pr.1, pr.2)
    else if c = ']' then
      if depth = 0 then ([], c :: cs)
      else
        let pr := elemScan cs false qc (depth - 1)
        (c :: pr.1, pr.2)
    else if c = ',' ∧ depth = 0 then ([], c :: cs)
    else
      let pr := elemScan cs false qc depth
      (c :: pr.1, pr.2)
  | c :: cs, true, qc, depth =>
    let pr := elemScan cs (¬ (c = qc)) qc depth
    (c :: pr.1, pr.2)

/-- `p[n] ∈ {NUL, ' ', '\t', ',', ']'}` — the boundary test after the
`true`/`false` tokens of `parse_value`. -/
def boolBound (s : Str) : Bool :=
  s = [] || headIs s ' ' || headIs s '\t' || headIs s ',' || headIs s ']'

/-- `p ∈ {NUL, ',', ']'}` — the boundary test after a number or identifier
(already past `skip_ws`). -/
def valueBound (s : Str) : Bool :=
  s = [] || headIs s ',' || headIs s ']'

/-- The numeric scan of `parse_value`: optional sign, digits with at most
one dot.  Returns (sign is negative, integer digits, fraction digits,
remainder). -/
def numScan (p : Str) : Bool × Str × Str × Str :=
  let neg := headIs p '-'
  let p1 := if headIs p '-' ∨ headIs p '+' then p.tail else p
  let ints := p1.takeWhile isDigitC
  let r1 := p1.drop ints.length
  match r1 with
  | '.' :: r2 =>
    let frac := r2.takeWhile isDigitC
    (neg, ints, frac, r2.drop frac.length)
  | _ => (neg, ints, [], r1)

/-- The exact value `strtod` assigns to a sign+digits+dot literal
(`parse_value` only ever feeds such strings to `strtod`). -/
def decValue (neg : Bool) (ints frac : Str) : Rat :=
  mkRat ((if neg then -1 else 1) * (digitsVal (ints ++ frac) 0 : Int)) (10 ^ frac.length)

/-- The two mutually recursive phases of `parse_value`: parsing one value,
and the element loop of an array literal. -/
inductive PVMode where
  | value (s : Str)
  | elems (s : Str) (acc : List Variable)

/-- Fueled model of `parse_value` of vars.c (and its array-element loop).
In source order: empty → empty string; unquoted top-level comma → reparse
as `[input]`; quoted string (no escapes); `true`/`false` with boundary;
`[...]` array; sign+digits+dot number via `strtod`; identifier cloned from
the variable store (undefined → RuntimeError); otherwise `Invalid value`.
`none` is fuel exhaustion. -/
def parseValueGo : Nat → Variables → Nat → PVMode → Option (Except Err Variable)
  | 0, _, _, _ => none
  | fuel + 1, vars, ln, .value value_str =>
    let p := value_str.dropWhile isBlank
    if p = [] then some (.ok (.str []))
    else if hasTopComma p false ' ' 0 then
      parseValueGo fuel vars ln (.value ('[' :: p ++ [']']))
    else if headIs p '"' ∨ headIs p '\'' then
      let quote := p.headD ' '
      let body := p.tail
      let content := body.takeWhile (· ≠ quote)
      if content.length = body.length then
        some (.error ⟨.syn, lc "Unterminated string literal", ln⟩)
      else some (.ok (.str content))
    else if (lc "true").isPrefixOf p ∧ boolBound (p.drop 4) then
      some (.ok (.vbool true))
    else if (lc "false").isPrefixOf p ∧ boolBound (p.drop 5) then
      some (.ok (.vbool false))
    else if headIs p '[' then
      parseValueGo fuel vars ln (.elems (p.tail.dropWhile isBlank) [])
    else
      let sc := numScan p
      let rest := sc.2.2.2
      if (sc.2.1 ≠ [] ∨ sc.2.2.1 ≠ []) ∧ valueBound (rest.dropWhile isBlank) then
        some (.ok (.num (decValue sc.1 sc.2.1 sc.2.2.1)))
      else
        let idrun := p.takeWhile isIdentChar
        let an := (p.drop idrun.length).dropWhile isBlank
        if idrun ≠ [] ∧ valueBound an then
          match vars_get vars idrun with
          | none => some (.error ⟨.runtime, lc "Undefined variable: " ++ idrun, ln⟩)
          | some v => some (.ok (var_clone v))
        else some (.error ⟨.syn, lc "Invalid value", ln⟩)
  | fuel + 1, vars, ln, .elems p acc =>
    if p = [] ∨ headIs p ']' then
      if headIs p ']' then some (.ok (.arr acc))
      else some (.error ⟨.syn, lc "Unterminated array literal", ln⟩)
    else
      let pr := elemScan p false ' ' 0
      let trimmed := trimBlank pr.1
      let rest2 := (if headIs pr.2 ',' then pr.2.tail else pr.2).dropWhile isBlank
      if trimmed = [] then
        parseValueGo fuel vars ln (.elems rest2 acc)
      else
        match parseValueGo fuel vars ln (.value trimmed) with
        | none => none
        | some (.error e) => some (.error e)
        | some (.ok v) => parseValueGo fuel vars ln (.elems rest2 (acc ++ [var_clone v]))

/-- `parse_value` with fuel that suffices for all inputs exercised below. -/
def parse_value (vars : Variables) (ln : Nat) (s : Str) : Option (Except Err Variable) :=
  parseValueGo (2 * s.length + 4) vars ln (.value s)

end Mewo

namespace Mewo

/-- `StmtType` + the union payload of `struct Stmt` of parser.c.  Attribute
parameters are the trimmed `raw_line` strings of the parameter statements
the source allocates. -/
inductive SData where
  | sAttr (name : Str) (params : List Str)
  | sVarAssign (name : Str) (value : Str)
  | sIndexAccess (name : Str) (index : Str)
  | sIndexAssign (name : Str) (index : Str) (value : Str)
  | sLabel (name : Str)
  | sCommand (raw : Str)
  | sIf (cond : Str)
  | sElse
  | sEndif
  | sGoto (target : Str)
  | sCall (target : Str)
deriving DecidableEq, Repr

/-- `struct Stmt`: payload plus `indent_level` (a C `int`) and
`line_number` (a C `size_t`). -/
structure Stmt where
  data : SData
  indent_level : Int
  line_number : Nat
deriving DecidableEq, Repr

/-- The `AST` of parser.c: the ordered statement list. -/
abbrev AST := List Stmt

/-- `str_trim` of parser.c: strip `isspace` characters from both ends. -/
def str_trim (s : Str) : Str :=
  ((s.dropWhile isSpaceC).reverse.dropWhile isSpaceC).reverse

/-- `ends_with_continuation`: a final backslash not preceded by another. -/
def ends_with_continuation (s : Str) : Bool :=
  match s.reverse with
  | '\\' :: '\\' :: _ => false
  | '\\' :: _ => true
  | _ => false

/-- The loop of `count_indent`, which uses `count` both as column counter
and as index (a tab adds 4 and skips 3 characters).  The fuel always
suffices (each step consumes at least one character). -/
def ciGo : Nat → Str → Nat → Nat
  | 0, _, acc => acc
  | _, [], acc => acc
  | fuel + 1, c :: cs, acc =>
    if c = ' ' then ciGo fuel cs (acc + 1)
    else if c = '\t' then ciGo fuel (cs.drop 3) (acc + 4)
    else acc

/-- `count_indent`: leading columns divided by 4. -/
def count_indent (l : Str) : Nat := ciGo (l.length + 1) l 0 / 4

def is_empty_or_comment (l : Str) : Bool :=
  match l.dropWhile isSpaceC with
  | [] => true
  | ';' :: _ => true
  | '/' :: '/' :: _ => true
  | _ => false

/-- The loop of `strip_comment`: `"`-quote tracking with a backslash-escape
check on the previous character; `;` or `//` outside a string ends the line. -/
def scGo : Str → Bool → Option Char → Str
  | [], _, _ => []
  | c :: cs, instr, prev =>
    let instr2 := if c = '"' ∧ prev ≠ some '\\' then ¬instr else instr
    if ¬instr2 ∧ c = ';' then []
    else if ¬instr2 ∧ c = '/' ∧ headIs cs '/' then []
    else c :: scGo cs instr2 (some c)

def strip_comment (l : Str) : Str := scGo l false none

def starts_with (str pre : Str) : Bool := pre.isPrefixOf str

/-- `find_unquoted_char`, used by the caller only as an existence test. -/
def fuGo : Str → Char → Bool → Char → Bool
  | [], _, _, _ => false
  | c :: cs, target, false, qc =>
    if c = '"' ∨ c = '\'' then fuGo cs target true c
    else if c = target then true
    else fuGo cs target false qc
  | c :: cs, target, true, qc =>
    if c = qc then fuGo cs target false qc
    else fuGo cs target true qc

def find_unquoted_char (s : Str) (c : Char) : Bool := fuGo s c false ' '

/-- `is_single_identifier_before_eq`: before the first `=` there must be
exactly one run of `[A-Za-z0-9_]` characters surrounded by whitespace. -/
def is_single_identifier_before_eq (s : Str) : Bool :=
  let before := s.takeWhile (· ≠ '=')
  if before.length = s.length then false
  else
    let b1 := before.reverse.dropWhile isSpaceC
    let run := b1.takeWhile (fun c => isAlnumC c || c = '_')
    decide (run ≠ []) && (b1.drop run.length).all isSpaceC

/-- The balanced-parenthesis content scan shared by `extract_attr_param`,
`parse_conditional` and the `#features` body (content before the `)` that
closes depth 1; everything when unbalanced). -/
def eapScan : Str → Nat → Str
  | [], _ => []
  | c :: cs, depth =>
    let d2 := if c = '(' then depth + 1 else if c = ')' then depth - 1 else depth
    if d2 = 0 then []
    else c :: eapScan cs d2

/-- `parse_label`: text before the first `:`, whitespace-trimmed; empty ⇒
`missing label name`. -/
def parse_label (line : Str) (ln : Nat) : Except Err SData :=
  let pre := line.takeWhile (· ≠ ':')
  if pre.length = line.length then .error ⟨.syn, lc "missing label name", ln⟩
  else
    let name := str_trim pre
    if name = [] then .error ⟨.syn, lc "missing label name", ln⟩
    else .ok (.sLabel name)

/-- `parse_conditional`: `#if` followed by a parenthesised condition; the
condition is the raw text before the parenthesis closing depth 1. -/
def parse_conditional (line : Str) (ln : Nat) : Except Err SData :=
  let p := (line.dropWhile isSpaceC).drop 3
  let p2 := p.dropWhile isSpaceC
  match p2 with
  | '(' :: rest => .ok (.sIf (eapScan rest 1))
  | _ => .error ⟨.syn, lc "Expected ( after #if", ln⟩

/-- One attribute-parameter scan of `parse_attr`: characters before a `,`
or `)` at parenthesis depth 0 (the stopping character is not consumed). -/
def attrParamScan : Str → Nat → Str × Str
  | [], _ => ([], [])
  | c :: cs, depth =>
    if (c = ',' ∨ c = ')') ∧ depth = 0 then ([], c :: cs)
    else
      let d2 := if c = '(' then depth + 1 else if c = ')' then depth - 1 else depth
      let pr := attrParamScan cs d2
      (c :: pr.1, pr.2)

/-- The parameter loop of `parse_attr` (at most 3 parameters, each trimmed;
empty scans are skipped).  The fuel always suffices. -/
def attrParamsGo : Nat → Str → List Str → List Str
  | 0, _, acc => acc
  | fuel + 1, p, acc =>
    if p = [] ∨ headIs p ')' ∨ acc.length ≥ 3 then acc
    else
      let p1 := p.dropWhile isSpaceC
      let pr := attrParamScan p1 0
      let acc2 := if pr.1 ≠ [] then acc ++ [str_trim pr.1] else acc
      let p2 := if headIs pr.2 ',' then pr.2.tail else pr.2
      attrParamsGo fuel p2 acc2

/-- `parse_attr`: `#name` with an optional parenthesised parameter list;
`#features` takes its whole body as one trimmed parameter.  `none` models
the NULL return on an empty name (the caller then reports
`Unknown directive`, overwriting the error the source sets here). -/
def parse_attr (line : Str) : Option (Str × List Str) :=
  let p := line.dropWhile isSpaceC
  match p with
  | '#' :: p1 =>
    let name := p1.takeWhile (fun c => c ≠ '(' ∧ ¬ isSpaceC c)
    if name = [] then none
    else
      let p2 := (p1.drop name.length).dropWhile isSpaceC
      match p2 with
      | '(' :: rest =>
        if name = lc "features" then
          some (name, [str_trim (eapScan rest 1)])
        else
          some (name, attrParamsGo (rest.length + 1) rest [])
      | _ => some (name, [])
  | _ => none

/-- The caller-side advance past one `#name(...)` (and optional `:`) in
`parse`; this balanced scan consumes the closing parenthesis. -/
def skipBalanced : Str → Nat → Str
  | [], _ => []
  | c :: cs, depth =>
    let d2 := if c = '(' then depth + 1 else if c = ')' then depth - 1 else depth
    if d2 = 0 then cs
    else skipBalanced cs d2

def attrAdvance (s : Str) : Str :=
  let a1 := s.tail
  let a2 := a1.dropWhile (fun c => c ≠ '(' ∧ ¬ isSpaceC c)
  let a3 := match a2 with
    | '(' :: rest => skipBalanced rest 1
    | _ => a2
  let a4 := if headIs a3 ':' then a3.tail else a3
  a4.dropWhile isSpaceC

/-- The attribute-prefix loop of `parse`: each parsed attribute is emitted
at the current indent.  The source sets `indent_level` here but never sets
`line_number` on these statements, so they keep the `calloc` value 0; the
model reproduces that.  The fuel always suffices. -/
def attrLoopGo : Nat → Str → Int → AST → Str × AST
  | 0, s, _, acc => (s, acc)
  | fuel + 1, s, indent, acc =>
    if headIs s '#' then
      match parse_attr s with
      | some pr => attrLoopGo fuel (attrAdvance s) indent (acc ++ [⟨.sAttr pr.1 pr.2, indent, 0⟩])
      | none => (s, acc)
    else (s, acc)

/-- `parse_var_assign`: identifier (optionally with a bracketed index
between the last `[` and the last `]` of the left side) `=` value; the
value keeps everything after `=` minus leading whitespace.  `none` models
the silent NULL returns (the caller drops the line). -/
def parse_var_assign (line : Str) : Option SData :=
  let pre := line.takeWhile (· ≠ '=')
  if pre.length = line.length then none
  else
    let region := ((pre.dropWhile isSpaceC).reverse.dropWhile isSpaceC).reverse
    if region = [] then none
    else
      let ropen := region.reverse.takeWhile (· ≠ '[')
      let hasOpen := decide (ropen.length ≠ region.length)
      let openPos := region.length - 1 - ropen.length
      let rclose := region.reverse.takeWhile (· ≠ ']')
      let hasClose := decide (rclose.length ≠ region.length)
      let closePos := region.length - 1 - rclose.length
      let checkLen := if hasOpen then openPos else region.length
      if ¬ isIdentStart (region.headD ' ') then none
      else if ¬ ((region.take checkLen).drop 1).all isIdentChar then none
      else
        let value := (line.drop (pre.length + 1)).dropWhile isSpaceC
        if hasOpen ∧ hasClose ∧ openPos < closePos then
          some (.sIndexAssign (region.take openPos)
            ((region.drop (openPos + 1)).take (closePos - openPos - 1)) value)
        else some (.sVarAssign region value)

/-- The physical-line-continuation join of `parse`: while the accumulator
ends with an unescaped backslash and lines remain, drop the backslash and
join the next comment-stripped, trimmed line with a single space.  Returns
the joined text, the remaining lines, and the index of the last consumed
line. -/
def joinCont : Str → List Str → Nat → Str × List Str × Nat
  | acc, [], i => (acc, [], i)
  | acc, l :: ls, i =>
    if ends_with_continuation acc then
      joinCont (acc.dropLast ++ ' ' :: str_trim (strip_comment l)) ls (i + 1)
    else (acc, l :: ls, i)

/-- Fueled model of `parse` of parser.c; `i` is the 0-based index of the
current line.  The fuel always suffices for `fuel > lines.length` (every
step consumes at least one line). -/
def parseGo : Nat → List Str → Nat → AST → Option (AST × Option Err)
  | 0, _, _, _ => none
  | _ + 1, [], _, acc => some (acc, none)
  | fuel + 1, line :: rest, i, acc =>
    if is_empty_or_comment line then parseGo fuel rest (i + 1) acc
    else
      let lnc := strip_comment line
      let indent := count_indent lnc
      let trimmed := (lnc.drop (indent * 4)).dropWhile isSpaceC
      if starts_with trimmed (lc "#if(") ∨ starts_with trimmed (lc "#if ") then
        match parse_conditional trimmed (i + 1) with
        | .error e => some (acc, some e)
        | .ok d => parseGo fuel rest (i + 1) (acc ++ [⟨d, (indent : Int), i + 1⟩])
      else if starts_with trimmed (lc "#else") then
        parseGo fuel rest (i + 1) (acc ++ [⟨.sElse, (indent : Int), i + 1⟩])
      else if starts_with trimmed (lc "#endif") then
        parseGo fuel rest (i + 1) (acc ++ [⟨.sEndif, (indent : Int), i + 1⟩])
      else
        let pr := attrLoopGo (trimmed.length + 1) trimmed (indent : Int) acc
        let after_attrs := pr.1
        let acc1 := pr.2
        if after_attrs = [] then parseGo fuel rest (i + 1) acc1
        else if headIs after_attrs '#' then
          if starts_with after_attrs (lc "#if(") then
            match parse_conditional after_attrs (i + 1) with
            | .error e => some (acc1, some e)
            | .ok d => parseGo fuel rest (i + 1) (acc1 ++ [⟨d, (indent : Int), i + 1⟩])
          else if starts_with after_attrs (lc "#else") then
            parseGo fuel rest (i + 1) (acc1 ++ [⟨.sElse, (indent : Int), i + 1⟩])
          else if starts_with after_attrs (lc "#endif") then
            parseGo fuel rest (i + 1) (acc1 ++ [⟨.sEndif, (indent : Int), i + 1⟩])
          else some (acc1, some ⟨.syn, lc "Unknown directive", i + 1⟩)
        else if find_unquoted_char after_attrs ':' ∧ indent = 0 then
          match parse_label after_attrs (i + 1) with
          | .error e => some (acc1, some e)
          | .ok d => parseGo fuel rest (i + 1) (acc1 ++ [⟨d, (indent : Int), i + 1⟩])
        else if find_unquoted_char after_attrs '=' ∧ is_single_identifier_before_eq after_attrs then
          match parse_var_assign after_attrs with
          | some d => parseGo fuel rest (i + 1) (acc1 ++ [⟨d, (indent : Int), i + 1⟩])
          | none => parseGo fuel rest (i + 1) acc1
        else if starts_with after_attrs (lc "goto ") ∨ after_attrs = lc "goto" then
          let target := (after_attrs.drop 4).dropWhile isSpaceC
          if target = [] then some (acc1, some ⟨.syn, lc "Expected label name after goto", i + 1⟩)
          else if isIdentStart (target.headD ' ') then
            parseGo fuel rest (i + 1) (acc1 ++ [⟨.sGoto (str_trim target), (indent : Int), i + 1⟩])
          else
            parseGo fuel rest (i + 1) (acc1 ++ [⟨.sCommand after_attrs, (indent : Int), i + 1⟩])
        else if starts_with after_attrs (lc "call ") ∨ after_attrs = lc "call" then
          let target := (after_attrs.drop 4).dropWhile isSpaceC
          if target = [] then some (acc1, some ⟨.syn, lc "Expected label name after call", i + 1⟩)
          else if isIdentStart (target.headD ' ') then
            parseGo fuel rest (i + 1) (acc1 ++ [⟨.sCall (str_trim target), (indent : Int), i + 1⟩])
          else
            parseGo fuel rest (i + 1) (acc1 ++ [⟨.sCommand after_attrs, (indent : Int), i + 1⟩])
        else
          let tr := joinCont after_attrs rest i
          parseGo fuel tr.2.1 (tr.2.2 + 1)
            (acc1 ++ [⟨.sCommand tr.1, (indent : Int), tr.2.2 + 1⟩])

/-- Model of `parse` of parser.c (the fuel suffices: one unit per source line). -/
def parse (lines : List Str) : Option (AST × Option Err) :=
  parseGo (lines.length + 1) lines 0 []

end Mewo

namespace Mewo

/-- The `ExecContext` of exec.c (minus the AST pointer, passed separately,
and the never-used call stack).  `default_shell` is set at init and never
read afterwards, exactly as in the source. -/
structure Ctx where
  dry_run : Bool
  default_shell : Option Str
  current_index : Nat
  labels : List (Str × Nat)
  current_label_index : Int
  pending_attrs : List (Str × List Str)

/-- Full interpreter state: the process-wide stores, the error slot of
error.c, and the executor context. -/
structure S where
  st : Store
  err : Option Err
  ctx : Ctx

def is_platform_windows (env : Env) : Bool := env.plat = .windows

def is_platform_linux (env : Env) : Bool := env.plat = .linux

def is_platform_macos (env : Env) : Bool := env.plat = .macos

/-- `__linux__ || __APPLE__ || __unix__`; other unix-likes are not modelled. -/
def is_platform_unix (env : Env) : Bool := env.plat = .linux || env.plat = .macos

def is_conditional_attr (name : Str) : Bool :=
  name = lc "windows" || name = lc "win32" || name = lc "linux" || name = lc "macos" ||
  name = lc "darwin" || name = lc "unix" || name = lc "arch" || name = lc "distro" ||
  name = lc "feature" || name = lc "env" || name = lc "exists"

/-- `check_conditional_attr` of exec.c.  The second component is the error
the call may record in the global slot (only the `exists` branch can, via a
failing `interpolate`; the boolean is then `false`).  A bare quote as the
`exists` parameter is undefined behaviour in the source (length underflow)
and is modelled as the unquoted path. -/
def check_conditional_attr (env : Env) (st : Store) (name : Str) (params : List Str)
    (ln : Nat) : Bool × Option Err :=
  if name = lc "windows" ∨ name = lc "win32" then (is_platform_windows env, none)
  else if name = lc "linux" then (is_platform_linux env, none)
  else if name = lc "macos" ∨ name = lc "darwin" then (is_platform_macos env, none)
  else if name = lc "unix" then (is_platform_unix env, none)
  else if name = lc "arch" then
    (match params.head? with
     | some p0 => decide (p0 = env.arch)
     | none => false, none)
  else if name = lc "distro" then
    (match params.head? with
     | some p0 => decide (p0 = env.distro)
     | none => false, none)
  else if name = lc "feature" then
    (match params.head? with
     | some p0 => feature_exists st.features p0
     | none => false, none)
  else if name = lc "env" then
    (match params.head? with
     | some p0 =>
       match env.getenvF p0 with
       | none => false
       | some v =>
         match params.get? 1 with
         | some p1 => decide (v = p1)
         | none => true
     | none => false, none)
  else if name = lc "exists" then
    match params.head? with
    | some raw =>
      if 2 ≤ raw.length ∧ headIs raw '"' ∧ raw.getLast? = some '"' then
        (env.fileExistsF raw.tail.dropLast, none)
      else
        match vars_get st.vars raw with
        | some (.str sv) => (env.fileExistsF sv, none)
        | _ =>
          match interpolate env st ln raw with
          | .error e => (false, some e)
          | .ok path => (env.fileExistsF path, none)
    | none => (false, none)
  else (true, none)

/-- `check_pending_conditionals`: every conditional attribute in the
pending buffer must hold (evaluated with line number 0, as in the source);
the first failing one may carry an error from its `interpolate`. -/
def check_pending_conditionals (env : Env) (st : Store) :
    List (Str × List Str) → Bool × Option Err
  | [] => (true, none)
  | (name, params) :: rest =>
    if is_conditional_attr name then
      let pr := check_conditional_attr env st name params 0
      if pr.1 then check_pending_conditionals env st rest
      else (false, pr.2)
    else check_pending_conditionals env st rest

/-- `CmdAttrs` of exec.c. -/
structure CmdAttrs where
  ignore_fail : Bool
  expect_code : Int
  has_expect : Bool
  cwd : Option Str
  shell : Option Str
  timeout_ms : Int
  once : Bool
  save_stream : Option Str
  save_var : Option Str
  use_system_shell : Bool
deriving DecidableEq, Repr

/-- `cmd_attrs_init`: zeroed attributes. -/
def cmd_attrs_init : CmdAttrs :=
  ⟨false, 0, false, none, none, 0, false, none, none, false⟩

/-- One step of `apply_pending_attrs`; `#shell(..., global)` writes the
global shell slot of the store. -/
def apply_one_attr (env : Env) (a : CmdAttrs × Store) (attr : Str × List Str) :
    CmdAttrs × Store :=
  let attrs := a.1
  let st := a.2
  let name := attr.1
  let params := attr.2
  if name = lc "ignorefail" then ({attrs with ignore_fail := true}, st)
  else if name = lc "expect" then
    let attrs2 := {attrs with has_expect := true}
    match params.head? with
    | some p0 => ({attrs2 with expect_code := atoiModel p0}, st)
    | none => (attrs2, st)
  else if name = lc "cwd" then
    match params.head? with
    | some p0 => ({attrs with cwd := some p0}, st)
    | none => (attrs, st)
  else if name = lc "shell" then
    match params.head? with
    | some shell_name =>
      if shell_name = lc "default" then
        let attrs2 := {attrs with use_system_shell := true}
        if params.get? 1 = some (lc "global") then (attrs2, {st with globalShell := none})
        else (attrs2, st)
      else
        if params.get? 1 = some (lc "global") then (attrs, {st with globalShell := some shell_name})
        else ({attrs with shell := some shell_name}, st)
    | none =>
      if env.plat = .windows then ({attrs with shell := some (lc "cmd.exe")}, st)
      else ({attrs with shell := some (lc "/bin/sh")}, st)
  else if name = lc "timeout" then
    match params.head? with
    | some p0 => ({attrs with timeout_ms := atoiModel p0}, st)
    | none => (attrs, st)
  else if name = lc "once" then ({attrs with once := true}, st)
  else if name = lc "save" then
    if 2 ≤ params.length then
      ({attrs with save_stream := params.head?, save_var := params.get? 1}, st)
    else (attrs, st)
  else (attrs, st)

/-- `apply_pending_attrs` of exec.c (the caller clears the buffer). -/
def apply_pending_attrs (env : Env) (pending : List (Str × List Str)) (st : Store) :
    CmdAttrs × Store :=
  pending.foldl (apply_one_attr env) (cmd_attrs_init, st)

/-- `snprintf(buffer, 1024, use_shell, cmd)` for a shell string containing
`%s`: substitute the first `%s`, truncate to 1023 characters (other `%`
conversions would be undefined behaviour in the source and are kept
verbatim). -/
def substFirst : Str → Str → Str
  | [], _ => []
  | '%' :: 's' :: rest, cmd => cmd ++ rest
  | c :: cs, cmd => c :: substFirst cs cmd

def fmtPctS (sh cmd : Str) : Str := (substFirst sh cmd).take 1023

/-- `strstr` as a Boolean occurrence test. -/
def hasSub : Str → Str → Bool
  | [], sub => sub.isEmpty
  | c :: cs, sub => sub.isPrefixOf (c :: cs) || hasSub cs sub

/-- The argv vector `exec_command` hands to the nob spawn primitive. -/
def resolveArgv (env : Env) (sh cmd : Str) : List Str :=
  if hasSub sh (lc "%s") then [fmtPctS sh cmd]
  else if env.plat = .windows then [sh, lc "/c", cmd]
  else [sh, lc "-c", cmd]

/-- The per-process capture temporary file (POSIX path form). -/
def captureTempFile (env : Env) : Str :=
  lc "/tmp/mewo_capture_" ++ natToDec env.pid ++ lc ".tmp"

/-- Model of `exec_command` of exec.c.  The nob primitives report only
success (`nob_proc_wait` / `nob_cmd_run_opt` are true exactly when the
child exited normally with status 0 — the §4.6 contract), so the shell
path records exit code 0 or 1; the `system()` path decodes
`WIFEXITED`/`WEXITSTATUS` (POSIX branch of the source). -/
def exec_command (env : Env) (s : S) (raw_cmd : Str) (ln : Nat) : Bool × S :=
  match interpolate env s.st ln raw_cmd with
  | .error e => (false, {s with err := some e})
  | .ok cmd =>
    let ap := apply_pending_attrs env s.ctx.pending_attrs s.st
    let attrs := ap.1
    let st1 := ap.2
    let ctx1 := {s.ctx with pending_attrs := []}
    if s.ctx.dry_run then
      (true, ⟨{st1 with trace := st1.trace ++ [lc "[dry-run] " ++ cmd]}, s.err, ctx1⟩)
    else
      let old_cwd := st1.cwd
      let st2 := match attrs.cwd with
        | some p => {st1 with cwd := p}
        | none => st1
      let use_shell : Option Str :=
        if attrs.use_system_shell then none
        else match attrs.shell with
          | some sh => some sh
          | none => st2.globalShell
      let spawnRes : Bool × Int × Store :=
        match use_shell with
        | some sh =>
          let argvc := resolveArgv env sh cmd
          let r := env.runCmd argvc
          let success := r.exited && decide (r.status = 0)
          match attrs.save_stream, attrs.save_var with
          | some _, some varName =>
            let content := (env.readFileF (captureTempFile env)).getD []
            (success, if success then 0 else 1,
              {st2 with vars := vars_set st2.vars varName (.str content),
                        trace := st2.trace ++ [cmd]})
          | _, _ =>
            (success, if success then 0 else 1, {st2 with trace := st2.trace ++ [cmd]})
        | none =>
          let r := env.sysCmd cmd
          (r.exited && decide (r.status = 0),
            if r.exited then (r.status : Int) else -1,
            {st2 with trace := st2.trace ++ [cmd]})
      let success := spawnRes.1
      let exit_code := spawnRes.2.1
      let st3 := {spawnRes.2.2 with lastExit := exit_code}
      let res2 : Bool × Option Err :=
        if attrs.has_expect then
          if exit_code = attrs.expect_code then (true, none)
          else (false, some ⟨.runtime,
            lc "Expected exit code " ++ intToDec attrs.expect_code ++
              lc " but got " ++ intToDec exit_code, ln⟩)
        else if ¬ success ∧ ¬ attrs.ignore_fail then
          (false, some ⟨.runtime, lc "Command failed with exit code " ++ intToDec exit_code, ln⟩)
        else (success, none)
      let success3 := if attrs.ignore_fail then true else res2.1
      let st4 := match attrs.cwd with
        | some _ => {st3 with cwd := old_cwd}
        | none => st3
      let err2 := match res2.2 with
        | some e => some e
        | none => s.err
      (success3, ⟨st4, err2, ctx1⟩)

/-- `starts_with_attr` of exec.c. -/
def starts_with_attr (s pre : Str) : Option Str :=
  if pre.isPrefixOf s then some (s.drop pre.length) else none

/-- `extract_attr_param` of exec.c: the parenthesised body (everything when
unbalanced); `none` when no `(` follows. -/
def extract_attr_param : Str → Option Str
  | '(' :: rest => some (eapScan rest 1)
  | _ => none

/-- C `isxdigit` in the default locale. -/
def isHexDigitC (c : Char) : Bool :=
  ('0' ≤ c && c ≤ '9') || ('a' ≤ c && c ≤ 'f') || ('A' ≤ c && c ≤ 'F')

def hexVal (c : Char) : Nat :=
  if '0' ≤ c && c ≤ '9' then c.toNat - '0'.toNat
  else if 'a' ≤ c && c ≤ 'f' then c.toNat - 'a'.toNat + 10
  else if 'A' ≤ c && c ≤ 'F' then c.toNat - 'A'.toNat + 10
  else 0

def hexDigitsVal : Str → Nat → Nat
  | [], acc => acc
  | c :: cs, acc => hexDigitsVal cs (acc * 16 + hexVal c)

/-- Contract model of libc `strtod` for its decimal and C99 hexadecimal
forms: leading whitespace, sign, then either digits with one optional dot
and an optional `e`/`E` decimal exponent, or `0x`/`0X`, hex digits with
one optional dot and an optional `p`/`P` binary exponent (a `0x` prefix
without any hex digit reverts to the plain `0`, as the standard's
longest-valid-subject rule demands); returns the exact rational value
(rounding to `double` is not modelled) and the number of characters
consumed (0 when nothing parses).  The `inf`/`nan` forms are not
modelled: their values are never equal to 0, and under the truthiness
fallback below both the program (nonzero/NaN compares `!= 0.0`) and the
model (nothing parses, a non-blank remainder stays) deem such a
condition true. -/
def strtodModel (s : Str) : Rat × Nat :=
  let w := s.takeWhile isSpaceC
  let s1 := s.drop w.length
  let sl := if headIs s1 '-' ∨ headIs s1 '+' then 1 else 0
  let neg := headIs s1 '-'
  let s2 := s1.drop sl
  if headIs s2 '0' ∧ (headIs s2.tail 'x' ∨ headIs s2.tail 'X') then
    let h2 := s2.tail.tail
    let hints := h2.takeWhile isHexDigitC
    let h3 := h2.drop hints.length
    let hasDot := headIs h3 '.'
    let hfrac := if hasDot then h3.tail.takeWhile isHexDigitC else []
    let h4 := if hasDot then h3.tail.drop hfrac.length else h3
    if hints = [] ∧ hfrac = [] then (0, w.length + sl + 1)
    else
      let mantLen := w.length + sl + 2 + hints.length + (if hasDot then 1 else 0) + hfrac.length
      let expPart : Int × Nat :=
        match h4 with
        | c :: r =>
          if c = 'p' ∨ c = 'P' then
            let esl := if headIs r '-' ∨ headIs r '+' then 1 else 0
            let eneg := headIs r '-'
            let eds := (r.drop esl).takeWhile isDigitC
            if eds = [] then (0, 0)
            else ((if eneg then -1 else 1) * (digitsVal eds 0 : Int), 1 + esl + eds.length)
          else (0, 0)
        | [] => (0, 0)
      let m : Int := (if neg then -1 else 1) * (hexDigitsVal (hints ++ hfrac) 0 : Int)
      let v : Rat :=
        if 0 ≤ expPart.1 then
          mkRat (m * ((2 : Nat) ^ expPart.1.toNat : Nat)) (16 ^ hfrac.length)
        else mkRat m (16 ^ hfrac.length * 2 ^ (- expPart.1).toNat)
      (v, mantLen + expPart.2)
  else
    let ints := s2.takeWhile isDigitC
    let s3 := s2.drop ints.length
    let hasDot := headIs s3 '.'
    let frac := if hasDot then s3.tail.takeWhile isDigitC else []
    let s4 := if hasDot then s3.tail.drop frac.length else s3
    if ints = [] ∧ frac = [] then (0, 0)
    else
      let mantLen := w.length + sl + ints.length + (if hasDot then 1 else 0) + frac.length
      let expPart : Int × Nat :=
        match s4 with
        | c :: r =>
          if c = 'e' ∨ c = 'E' then
            let esl := if headIs r '-' ∨ headIs r '+' then 1 else 0
            let eneg := headIs r '-'
            let eds := (r.drop esl).takeWhile isDigitC
            if eds = [] then (0, 0)
            else ((if eneg then -1 else 1) * (digitsVal eds 0 : Int), 1 + esl + eds.length)
          else (0, 0)
        | [] => (0, 0)
      let m : Int := (if neg then -1 else 1) * (digitsVal (ints ++ frac) 0 : Int)
      let v : Rat :=
        if 0 ≤ expPart.1 then mkRat (m * ((10 : Nat) ^ expPart.1.toNat : Nat)) (10 ^ frac.length)
        else mkRat m (10 ^ (frac.length + (- expPart.1).toNat))
      (v, mantLen + expPart.2)

/-- The platform-literal branch of `eval_condition` (the `#ifdef` chain of
exec.c); `none` = fall through to the truthiness fallback. -/
def platformCond (env : Env) (p : Str) : Option Bool :=
  match env.plat with
  | .windows =>
    if p = lc "#windows" ∨ p = lc "#win32" then some true
    else if p = lc "#linux" ∨ p = lc "#macos" ∨ p = lc "#unix" then some false
    else none
  | .linux =>
    if p = lc "#linux" ∨ p = lc "#unix" then some true
    else if p = lc "#windows" ∨ p = lc "#win32" ∨ p = lc "#macos" then some false
    else none
  | .macos =>
    if p = lc "#macos" ∨ p = lc "#unix" then some true
    else if p = lc "#windows" ∨ p = lc "#win32" ∨ p = lc "#linux" then some false
    else none
  | .other => none

/-- The truthiness fallback of `eval_condition` on the interpolated
condition: left-trim blanks; `true`/`false`/empty literals; else `strtod`,
skip trailing blanks, a fully-consumed number is tested against zero and
anything else is true. -/
def truthyFallback (s : Str) : Bool :=
  let p := s.dropWhile isBlank
  if p = lc "true" then true
  else if p = lc "false" then false
  else if p = [] then false
  else
    let pr := strtodModel p
    if (p.drop pr.2).dropWhile isBlank = [] then decide (pr.1 ≠ 0)
    else true

/-- `eval_condition` of exec.c: `#feature`/`#defined`/`#len` prefixes, the
platform literals, then interpolation of the original condition and the
truthiness fallback. -/
def eval_condition (env : Env) (st : Store) (condition : Str) (ln : Nat) : Except Err Bool :=
  let p := condition.dropWhile isBlank
  match starts_with_attr p (lc "#feature") with
  | some after =>
    match extract_attr_param after with
    | some param => .ok (feature_exists st.features param)
    | none => .error ⟨.syn, lc "Invalid #feature syntax", ln⟩
  | none =>
    match starts_with_attr p (lc "#defined") with
    | some after =>
      match extract_attr_param after with
      | some param => .ok (vars_exists st.vars param)
      | none => .error ⟨.syn, lc "Invalid #defined syntax", ln⟩
    | none =>
      match starts_with_attr p (lc "#len") with
      | some after =>
        match extract_attr_param after with
        | some param => .ok (decide (0 < lenIntrinsic env st param))
        | none => .error ⟨.syn, lc "Invalid #len syntax", ln⟩
      | none =>
        match platformCond env p with
        | some b => .ok b
        | none =>
          match interpolate env st ln condition with
          | .error e => .error e
          | .ok cond => .ok (truthyFallback cond)

end Mewo

namespace Mewo

/-- Statement lookup `ctx->ast->stmts[i]`.  The executor only indexes
within bounds; the default is never reached on its paths. -/
def getStmt (ast : AST) (i : Nat) : Stmt :=
  (ast.get? i).getD ⟨.sEndif, 0, 0⟩

/-- `find_label_index`: position of the first label-table entry with the
given name. -/
def find_label_index (labels : List (Str × Nat)) (name : Str) : Option Nat :=
  labels.findIdx? (fun kv => kv.1 = name)

def is_label_name (labels : List (Str × Nat)) (name : Str) : Bool :=
  (find_label_index labels name).isSome

/-- `find_label_end`: first statement after the label whose indent is not
deeper than the label's, else the statement count. -/
def find_label_end (ast : AST) (label_stmt_index : Nat) : Nat :=
  let label_indent := (getStmt ast label_stmt_index).indent_level
  match (ast.drop (label_stmt_index + 1)).findIdx? (fun s => s.indent_level ≤ label_indent) with
  | some k => label_stmt_index + 1 + k
  | none => ast.length

/-- The `#else`/`#endif` locating scan shared by `exec_range` and the two
top-level walkers: from `j`, over `cnt` statements, statements at other
indents are skipped, nested `#if`s bump the depth, the last depth-1
`#else` is remembered, and the `#endif` closing depth 1 ends the scan.
Returns (endif index — 0 is the not-found sentinel of the source, else
index).-/
def findEEGo : AST → Nat → Int → Nat → Option Nat → Nat → Nat × Option Nat
  | _, _, _, _, elseIdx, 0 => (0, elseIdx)
  | ast, j, ind, depth, elseIdx, cnt + 1 =>
    let s := getStmt ast j
    if s.indent_level ≠ ind then findEEGo ast (j + 1) ind depth elseIdx cnt
    else
      match s.data with
      | .sIf _ => findEEGo ast (j + 1) ind (depth + 1) elseIdx cnt
      | .sElse =>
        if depth = 1 then findEEGo ast (j + 1) ind depth (some j) cnt
        else findEEGo ast (j + 1) ind depth elseIdx cnt
      | .sEndif =>
        if depth = 1 then (j, elseIdx)
        else findEEGo ast (j + 1) ind (depth - 1) elseIdx cnt
      | _ => findEEGo ast (j + 1) ind depth elseIdx cnt

def findElseEndif (ast : AST) (i e : Nat) (ind : Int) : Nat × Option Nat :=
  findEEGo ast (i + 1) ind 1 none (e - (i + 1))

/-- The comma-splitting loop of the `#features` handler in `exec_stmt`:
whitespace-trimmed, empties dropped.  The fuel always suffices. -/
def sfGo : Nat → Str → List Str → List Str
  | 0, _, acc => acc
  | fuel + 1, p, acc =>
    if p = [] then acc
    else
      let p1 := p.dropWhile isSpaceC
      let tok := p1.takeWhile (· ≠ ',')
      let rest := p1.drop tok.length
      let name := (tok.reverse.dropWhile isSpaceC).reverse
      let acc2 := if name ≠ [] then acc ++ [name] else acc
      let rest2 := if headIs rest ',' then rest.tail else rest
      sfGo fuel rest2 acc2

def splitFeatures (s : Str) : List Str := sfGo (s.length + 1) s []

def isAttrStmt : SData → Bool
  | .sAttr _ _ => true
  | _ => false

def isLabelStmt : SData → Bool
  | .sLabel _ => true
  | _ => false

def isAnonLabel : SData → Bool
  | .sLabel name => name.isEmpty
  | _ => false

/-- The five mutually recursive entry points of the executor of exec.c,
merged into one fueled function: `exec_stmt`, `exec_range` (as its loop
from index `i`), `exec_label`, `exec_top_level` and
`exec_top_level_except_calls_and_gotos` (as their loops from index `i`).
parser.c's statement type has no LabelAlias variant, so the alias paths of
exec.c are unreachable and not modelled. -/
inductive ECall where
  | stmt (stm : Stmt) (idx : Nat)
  | range (i e : Nat)
  | label (name : Str) (caller_ln : Nat)
  | top (i : Nat)
  | topx (i : Nat)

/-- Fueled model of the executor of exec.c; `none` is fuel exhaustion
(the source can loop forever through backward `goto` and recursive
`call`). -/
def execGo : Nat → Env → AST → ECall → S → Option (Bool × S)
  | 0, _, _, _, _ => none
  | fuel + 1, env, ast, .stmt stm _idx, s =>
    let ln := stm.line_number
    if ¬ isAttrStmt stm.data ∧ s.ctx.pending_attrs ≠ [] ∧
        ¬ (check_pending_conditionals env s.st s.ctx.pending_attrs).1 then
      some (true, {s with
        err := match (check_pending_conditionals env s.st s.ctx.pending_attrs).2 with
          | some e => some e
          | none => s.err,
        ctx := {s.ctx with pending_attrs := []}})
    else
      match stm.data with
      | .sAttr name params =>
        if name = lc "assert" then
          match params.head? with
          | some condition =>
            match eval_condition env s.st condition ln with
            | .error e => some (false, {s with err := some e})
            | .ok true => some (true, s)
            | .ok false =>
              some (false, {s with err := some ⟨.runtime, lc "Assertion failed: " ++ condition, ln⟩})
          | none => some (false, {s with err := some ⟨.syn, lc "#assert requires a condition", ln⟩})
        else if name = lc "features" then
          match params.head? with
          | some list =>
            some (true, {s with st := {s.st with
              features := (splitFeatures list).foldl feature_enable s.st.features}})
          | none => some (true, s)
        else
          some (true, {s with ctx := {s.ctx with
            pending_attrs := s.ctx.pending_attrs ++ [(name, params)]}})
      | .sVarAssign name value =>
        match interpolate env s.st ln value with
        | .error e => some (false, {s with err := some e})
        | .ok iv =>
          match parse_value s.st.vars ln iv with
          | none => none
          | some (.error e) => some (false, {s with err := some e})
          | some (.ok v) =>
            some (true, {s with
              st := {s.st with vars := vars_set s.st.vars name v},
              ctx := {s.ctx with pending_attrs := []}})
      | .sIndexAssign name index value =>
        match interpolate env s.st ln index with
        | .error e => some (false, {s with err := some e})
        | .ok iIdx =>
          match interpolate env s.st ln value with
          | .error e => some (false, {s with err := some e})
          | .ok iVal =>
            match vars_get s.st.vars name with
            | none =>
              some (false, {s with err := some ⟨.runtime, lc "Undefined variable: " ++ name, ln⟩})
            | some var =>
              let idx := toSizeT (atollModel iIdx)
              match parse_value s.st.vars ln iVal with
              | none => none
              | some (.error e) => some (false, {s with err := some e})
              | some (.ok new_val) =>
                match var with
                | .arr items =>
                  let items2 :=
                    if idx < items.length then items.set idx new_val
                    else
                      (items ++ List.replicate (idx + 1 - items.length) (Variable.str [])).set
                        idx new_val
                  some (true, {s with
                    st := {s.st with vars := vars_set s.st.vars name (.arr items2)},
                    ctx := {s.ctx with pending_attrs := []}})
                | _ =>
                  let e2 : Err :=
                    ⟨.runtime, lc "Cannot index assign to non-array variable " ++ name, ln⟩
                  some (false, {s with err := some e2})
      | .sIndexAccess _ _ =>
        some (true, {s with ctx := {s.ctx with pending_attrs := []}})
      | .sLabel _ => some (true, {s with ctx := {s.ctx with pending_attrs := []}})
      | .sCommand raw =>
        if 0 ≤ s.ctx.current_label_index ∧ is_label_name s.ctx.labels raw then
          execGo fuel env ast (.label raw ln) {s with ctx := {s.ctx with pending_attrs := []}}
        else
          some (exec_command env s raw ln)
      | .sGoto target =>
        match find_label_index s.ctx.labels target with
        | none => some (false, {s with err := some ⟨.runtime, lc "Unknown label " ++ target, ln⟩})
        | some label_idx =>
          some (true, {s with ctx := {s.ctx with
            current_index := ((s.ctx.labels.get? label_idx).getD ([], 0)).2,
            current_label_index := (label_idx : Int),
            pending_attrs := []}})
      | .sCall target =>
        execGo fuel env ast (.label target ln) {s with ctx := {s.ctx with pending_attrs := []}}
      | .sIf _ => some (true, s)
      | .sElse => some (true, s)
      | .sEndif => some (true, s)
  | fuel + 1, env, ast, .range i e, s =>
    if i ≥ e then some (true, s)
    else
      let stm := getStmt ast i
      match stm.data with
      | .sIf condition =>
        match eval_condition env s.st condition (i + 1) with
        | .error e2 => some (false, {s with err := some e2})
        | .ok condres =>
          let ee := findElseEndif ast i e stm.indent_level
          if ee.1 = 0 then
            some (false, {s with err := some ⟨.syn, lc "Missing #endif for #if", i + 1⟩})
          else
            let branchRes : Option (Bool × S) :=
              if condres then
                execGo fuel env ast (.range (i + 1) ((ee.2).getD ee.1)) s
              else
                match ee.2 with
                | some ei => execGo fuel env ast (.range (ei + 1) ee.1) s
                | none => some (true, s)
            match branchRes with
            | none => none
            | some (false, s2) => some (false, s2)
            | some (true, s2) => execGo fuel env ast (.range (ee.1 + 1) e) s2
      | .sElse => execGo fuel env ast (.range (i + 1) e) s
      | .sEndif => execGo fuel env ast (.range (i + 1) e) s
      | _ =>
        match execGo fuel env ast (.stmt stm i) s with
        | none => none
        | some (false, s2) => some (false, s2)
        | some (true, s2) =>
          match stm.data with
          | .sGoto _ =>
            if s2.ctx.current_index ≠ i then some (true, s2)
            else execGo fuel env ast (.range (i + 1) e) s2
          | _ => execGo fuel env ast (.range (i + 1) e) s2
  | fuel + 1, env, ast, .label name caller_ln, s =>
    match find_label_index s.ctx.labels name with
    | none => some (false, {s with err := some ⟨.runtime, lc "Unknown label " ++ name, caller_ln⟩})
    | some label_idx =>
      match execGo fuel env ast (.topx 0) s with
      | none => none
      | some (false, s2) => some (false, s2)
      | some (true, s2) =>
        let label_stmt_idx := ((s.ctx.labels.get? label_idx).getD ([], 0)).2
        let label_end := find_label_end ast label_stmt_idx
        let prev := s2.ctx.current_label_index
        let s3 := {s2 with ctx := {s2.ctx with current_label_index := (label_idx : Int)}}
        match execGo fuel env ast (.range (label_stmt_idx + 1) label_end) s3 with
        | none => none
        | some (success, s4) =>
          some (success, {s4 with ctx := {s4.ctx with current_label_index := prev}})
  | fuel + 1, env, ast, .top i, s =>
    if i ≥ ast.length then some (true, s)
    else
      let stm := getStmt ast i
      if isLabelStmt stm.data ∧ stm.indent_level = 0 then
        if isAnonLabel stm.data then
          match execGo fuel env ast (.range (i + 1) (find_label_end ast i)) s with
          | none => none
          | some (false, s2) => some (false, s2)
          | some (true, s2) => execGo fuel env ast (.top (find_label_end ast i)) s2
        else
          execGo fuel env ast (.top (find_label_end ast i))
            {s with ctx := {s.ctx with pending_attrs := []}}
      else if stm.indent_level = 0 then
        let s0 := {s with ctx := {s.ctx with current_index := i}}
        match stm.data with
        | .sIf condition =>
          match eval_condition env s0.st condition (i + 1) with
          | .error e2 => some (false, {s0 with err := some e2})
          | .ok condres =>
            let ee := findElseEndif ast i ast.length 0
            if ee.1 = 0 then
              some (false, {s0 with err := some ⟨.syn, lc "Missing #endif for #if", i + 1⟩})
            else
              let branchRes : Option (Bool × S) :=
                if condres then
                  execGo fuel env ast (.range (i + 1) ((ee.2).getD ee.1)) s0
                else
                  match ee.2 with
                  | some ei => execGo fuel env ast (.range (ei + 1) ee.1) s0
                  | none => some (true, s0)
              match branchRes with
              | none => none
              | some (false, s2) => some (false, s2)
              | some (true, s2) => execGo fuel env ast (.top (ee.1 + 1)) s2
        | .sElse => execGo fuel env ast (.top (i + 1)) s0
        | .sEndif => execGo fuel env ast (.top (i + 1)) s0
        | _ =>
          match execGo fuel env ast (.stmt stm i) s0 with
          | none => none
          | some (false, s2) => some (false, s2)
          | some (true, s2) =>
            match stm.data with
            | .sGoto _ =>
              if s2.ctx.current_index ≠ i then
                execGo fuel env ast (.top (s2.ctx.current_index + 1)) s2
              else execGo fuel env ast (.top (i + 1)) s2
            | _ => execGo fuel env ast (.top (i + 1)) s2
      else execGo fuel env ast (.top (i + 1)) s
  | fuel + 1, env, ast, .topx i, s =>
    if i ≥ ast.length then some (true, s)
    else
      let stm := getStmt ast i
      if isLabelStmt stm.data ∧ stm.indent_level = 0 then
        if isAnonLabel stm.data then
          match execGo fuel env ast (.range (i + 1) (find_label_end ast i)) s with
          | none => none
          | some (false, s2) => some (false, s2)
          | some (true, s2) => execGo fuel env ast (.topx (find_label_end ast i)) s2
        else
          execGo fuel env ast (.topx (find_label_end ast i))
            {s with ctx := {s.ctx with pending_attrs := []}}
      else if stm.indent_level = 0 then
        let s0 := {s with ctx := {s.ctx with current_index := i}}
        match stm.data with
        | .sIf condition =>
          match eval_condition env s0.st condition (i + 1) with
          | .error e2 => some (false, {s0 with err := some e2})
          | .ok condres =>
            let ee := findElseEndif ast i ast.length 0
            if ee.1 = 0 then
              some (false, {s0 with err := some ⟨.syn, lc "Missing #endif for #if", i + 1⟩})
            else
              let branchRes : Option (Bool × S) :=
                if condres then
                  execGo fuel env ast (.range (i + 1) ((ee.2).getD ee.1)) s0
                else
                  match ee.2 with
                  | some ei => execGo fuel env ast (.range (ei + 1) ee.1) s0
                  | none => some (true, s0)
              match branchRes with
              | none => none
              | some (false, s2) => some (false, s2)
              | some (true, s2) => execGo fuel env ast (.topx (ee.1 + 1)) s2
        | .sElse => execGo fuel env ast (.topx (i + 1)) s0
        | .sEndif => execGo fuel env ast (.topx (i + 1)) s0
        | .sCall _ => execGo fuel env ast (.topx (i + 1)) s0
        | .sGoto _ => execGo fuel env ast (.topx (i + 1)) s0
        | _ =>
          match execGo fuel env ast (.stmt stm i) s0 with
          | none => none
          | some (false, s2) => some (false, s2)
          | some (true, s2) => execGo fuel env ast (.topx (i + 1)) s2
      else execGo fuel env ast (.topx (i + 1)) s

/-- `ctx_register_label`: duplicate names are a fatal RuntimeError carrying
the statement index + 1 as line, as in the source. -/
def ctx_register_label (labels : List (Str × Nat)) (name : Str) (index : Nat) :
    Except Err (List (Str × Nat)) :=
  if labels.any (fun kv => kv.1 = name) then
    .error ⟨.runtime, lc "Duplicate label " ++ name, index + 1⟩
  else .ok (labels ++ [(name, index)])

/-- The loop of `register_all_labels`: a statement whose immediate
predecessor is a false conditional attribute is skipped; top-level labels
with nonempty names are registered.  The second component is the error
slot (written by failing `exists` interpolations and by duplicate-label
failures). -/
def registerGo (env : Env) (st : Store) :
    List (Nat × Stmt) → Option Stmt → List (Str × Nat) → Option Err →
    Option (List (Str × Nat)) × Option Err
  | [], _, acc, e => (some acc, e)
  | (i, stm) :: rest, prev, acc, e =>
    let chk : Option Bool × Option Err :=
      match prev with
      | some p =>
        match p.data with
        | .sAttr aname aparams =>
          if is_conditional_attr aname then
            let pr := check_conditional_attr env st aname aparams i
            (some pr.1,
              match pr.2 with
              | some e2 => some e2
              | none => e)
          else (none, e)
        | _ => (none, e)
      | none => (none, e)
    if chk.1 = some false then registerGo env st rest (some stm) acc chk.2
    else
      match stm.data with
      | .sLabel name =>
        if stm.indent_level = 0 ∧ name ≠ [] then
          match ctx_register_label acc name i with
          | .error e2 => (none, some e2)
          | .ok acc2 => registerGo env st rest (some stm) acc2 chk.2
        else registerGo env st rest (some stm) acc chk.2
      | _ => registerGo env st rest (some stm) acc chk.2

/-- `register_all_labels` of exec.c. -/
def register_all_labels (env : Env) (ast : AST) (st : Store) :
    Option (List (Str × Nat)) × Option Err :=
  registerGo env st ast.enum none [] none

/-- Model of `execute` of exec.c: seed features from the CLI lists,
register labels (failure aborts before any statement runs), then run the
requested label or the top level. -/
def executeModel (fuel : Nat) (env : Env) (ast : AST) (label : Option Str) (dry_run : Bool)
    (shell : Option Str) (enabled disabled : List Str) (st0 : Store) : Option (Bool × S) :=
  let ctx0 : Ctx := ⟨dry_run, shell, 0, [], -1, []⟩
  let st1 := {st0 with
    features := disabled.foldl feature_disable (enabled.foldl feature_enable st0.features)}
  match register_all_labels env ast st1 with
  | (none, e) => some (false, ⟨st1, e, ctx0⟩)
  | (some labels, e) =>
    let s0 : S := ⟨st1, e, {ctx0 with labels := labels}⟩
    match label with
    | some l => execGo fuel env ast (.label l 0) s0
    | none => execGo fuel env ast (.top 0) s0

end Mewo

namespace Mewo

/-- A concrete oracle environment for witnesses: no arguments, empty
process environment, no files, all children succeed with status 0. -/
def envW : Env :=
  ⟨[], fun _ => none, fun _ => none, fun _ => false,
    fun _ => ChildRes.mk true 0, fun _ => ChildRes.mk true 0, fun _ => none,
    OSPlat.linux, lc "x86_64", lc "debian", 1⟩

/-- A concrete empty store for witnesses. -/
def stW : Store := ⟨[], [], 0, none, lc "/root", []⟩

/-- Shared helper: interpolation is the identity on `$`-free templates. -/
theorem interp_no_dollar_id (env : Env) (st : Store) (ln : Nat) (s : Str)
    (h : ∀ c ∈ s, c ≠ '$') :
    interpolate env st ln s = .ok s := by
  have hs := interpF_no_dollar (s.length + 1) env st ln s (by omega) h
  simp [interpolate, hs]

/-- C8: For every template string that contains no `$` character,
interpolation returns the input string unchanged and signals no error,
independent of the variable store, feature store, argv, last exit code,
and environment (all quantified via `env` and `st`; the feature store is
never read by the interpolator at all). -/
theorem c8_no_dollar_identity (env : Env) (st : Store) (ln : Nat) (s : Str)
    (h : ∀ c ∈ s, c ≠ '$') :
    interpolate env st ln s = .ok s :=
  interp_no_dollar_id env st ln s h

theorem c8_no_dollar_identity_witness :
    (∀ c ∈ lc "echo hello | cat > out.txt", c ≠ '$') ∧
      interpolate envW stW 1 (lc "echo hello | cat > out.txt") =
        .ok (lc "echo hello | cat > out.txt") :=
  ⟨by decide, c8_no_dollar_identity envW stW 1 (lc "echo hello | cat > out.txt") (by decide)⟩

/-- Standard balanced-brace (Dyck) scan: every prefix closes at most as
many braces as it opened, and the total is balanced at depth `d`. -/
def dyck : Str → Nat → Bool
  | [], d => d = 0
  | c :: cs, d =>
    if c = '\x7b' then dyck cs (d + 1)
    else if c = '\x7d' then
      match d with
      | 0 => false
      | d2 + 1 => dyck cs d2
    else dyck cs d

/-- The inner text of `$${...}` has balanced braces. -/
def braceBalanced (s : Str) : Bool := dyck s 0

theorem copyBraces_open (cs : Str) (d : Nat) :
    copyBraces ('\x7b' :: cs) d =
      ('\x7b' :: (copyBraces cs (d + 1)).1, (copyBraces cs (d + 1)).2) := by
  have h : copyBraces ('\x7b' :: cs) d =
      (if d + 1 = 0 then (([] : Str), cs)
       else ('\x7b' :: (copyBraces cs (d + 1)).1, (copyBraces cs (d + 1)).2)) := rfl
  rw [h, if_neg (by omega)]

theorem copyBraces_close (cs : Str) (d : Nat) :
    copyBraces ('\x7d' :: cs) d =
      (if d - 1 = 0 then (([] : Str), cs)
       else ('\x7d' :: (copyBraces cs (d - 1)).1, (copyBraces cs (d - 1)).2)) := rfl

theorem copyBraces_other (c : Char) (cs : Str) (d : Nat)
    (h1 : c ≠ '\x7b') (h2 : c ≠ '\x7d') :
    copyBraces (c :: cs) d =
      (if d = 0 then (([] : Str), cs)
       else (c :: (copyBraces cs d).1, (copyBraces cs d).2)) := by
  have h : copyBraces (c :: cs) d =
      (if (if c = '\x7b' then d + 1 else if c = '\x7d' then d - 1 else d) = 0
       then (([] : Str), cs)
       else (c :: (copyBraces cs (if c = '\x7b' then d + 1
                else if c = '\x7d' then d - 1 else d)).1,
             (copyBraces cs (if c = '\x7b' then d + 1
                else if c = '\x7d' then d - 1 else d)).2)) := rfl
  rw [h, if_neg h1, if_neg h2]

theorem copyBraces_balanced : ∀ (t : Str) (d : Nat) (r : Str), dyck t d = true →
    copyBraces (t ++ '\x7d' :: r) (d + 1) = (t, r) := by
  intro t
  induction t with
  | nil =>
    intro d r h
    simp only [dyck, decide_eq_true_eq] at h
    subst h
    rw [List.nil_append, copyBraces_close]
    simp
  | cons c cs ih =>
    intro d r h
    simp only [dyck] at h
    by_cases hc : c = '\x7b'
    · subst hc
      rw [if_pos rfl] at h
      rw [List.cons_append, copyBraces_open, ih (d + 1) r h]
    · by_cases hc2 : c = '\x7d'
      · subst hc2
        rw [if_neg (by decide), if_pos rfl] at h
        cases d with
        | zero => exact Bool.noConfusion h
        | succ d2 =>
          rw [List.cons_append, copyBraces_close]
          have h2 : d2 + 1 + 1 - 1 = d2 + 1 := by omega
          rw [h2, if_neg (by omega : ¬ d2 + 1 = 0), ih d2 r h]
      · rw [if_neg hc, if_neg hc2] at h
        rw [List.cons_append, copyBraces_other c _ _ hc hc2,
          if_neg (by omega : ¬ d + 1 = 0), ih d r h]

theorem interpF_escape (fuel : Nat) (env : Env) (st : Store) (ln : Nat) (cs : Str) :
    interpF (fuel + 1) env st ln ('$' :: '$' :: '\x7b' :: cs) =
      contMap ('$' :: '\x7b' :: ((copyBraces cs 1).1 ++ ['\x7d']))
        (interpF fuel env st ln (copyBraces cs 1).2) := by
  simp [interpF, headIs]

/-- C7: For every template containing `$${text}` with balanced braces,
interpolation emits the literal `${text}` for that occurrence without
evaluating `text`, whatever the variable store holds (in particular
whether or not a variable named `text` is defined), and continues with the
rest of the template. -/
theorem c7_dollar_escape (env : Env) (st : Store) (ln : Nat) (text rest : Str)
    (h : braceBalanced text = true) :
    interpolate env st ln ('$' :: '$' :: '\x7b' :: (text ++ '\x7d' :: rest)) =
      (interpolate env st ln rest).map (fun r => '$' :: '\x7b' :: (text ++ '\x7d' :: r)) := by
  have hcb : copyBraces (text ++ '\x7d' :: rest) 1 = (text, rest) :=
    copyBraces_balanced text 0 rest h
  rw [interpolate]
  simp only [List.length_cons]
  rw [interpF_escape, hcb]
  rw [interpF_eq_interpolate _ env st ln rest
    (by simp only [List.length_append, List.length_cons]; omega)]
  cases hres : interpolate env st ln rest with
  | error e => simp [contMap, hres, Except.map]
  | ok r => simp [contMap, hres, Except.map]

theorem c7_dollar_escape_witness :
    braceBalanced (lc "undefined_name") = true ∧
      interpolate envW stW 1 ('$' :: '$' :: '\x7b' :: (lc "undefined_name" ++ '\x7d' :: lc " tail")) =
        .ok ('$' :: '\x7b' :: (lc "undefined_name" ++ '\x7d' :: lc " tail")) := by
  refine ⟨by decide, ?_⟩
  rw [c7_dollar_escape envW stW 1 (lc "undefined_name") (lc " tail") (by decide)]
  rw [interp_no_dollar_id envW stW 1 (lc " tail") (by decide)]
  rfl

/-- The source-level branch conditions under which a `$` is copied
literally: it is not `$$` followed by `{` or a digit, and the next
character is not a digit, `?` or `{`. -/
def dollarLiteralAt (cs : Str) : Bool :=
  if headIs cs '$' then ¬ (headIs cs.tail '\x7b' ∨ headDigit cs.tail)
  else ¬ (headDigit cs ∨ headIs cs '?' ∨ headIs cs '\x7b')

/-- C10: During interpolation, a `$` that is not followed by another `$`
plus `{` or digit, nor by a digit, `?`, or `{`, is copied literally to the
output; in particular a bare `$name` of an identifier (which starts with a
letter or underscore) does not expand a variable — only the `${name}` form
does. -/
theorem c10_literal_dollar (env : Env) (st : Store) (ln : Nat) (cs : Str)
    (h : dollarLiteralAt cs = true) :
    interpolate env st ln ('$' :: cs) = (interpolate env st ln cs).map (fun r => '$' :: r) := by
  have hfive : (headIs cs '$' && headIs cs.tail '\x7b') = false ∧
      (headIs cs '$' && headDigit cs.tail) = false ∧
      headDigit cs = false ∧ headIs cs '?' = false ∧ headIs cs '\x7b' = false := by
    by_cases hc1 : headIs cs '$' = true
    · simp only [dollarLiteralAt, if_pos hc1, decide_eq_true_eq] at h
      push_neg at h
      have hb1 : headIs cs.tail '\x7b' = false := Bool.eq_false_iff.mpr h.1
      have hb2 : headDigit cs.tail = false := Bool.eq_false_iff.mpr h.2
      have hd : headDigit cs = false := by
        rcases cs with _ | ⟨c1, cs1⟩
        · rfl
        · simp only [headIs, List.head?, Option.some.injEq, decide_eq_true_eq] at hc1
          subst hc1
          simp [headDigit, isDigitC]
      have hq : headIs cs '?' = false := by
        rcases cs with _ | ⟨c1, cs1⟩
        · rfl
        · simp only [headIs, List.head?, Option.some.injEq, decide_eq_true_eq] at hc1
          subst hc1
          simp [headIs]
      have hb : headIs cs '\x7b' = false := by
        rcases cs with _ | ⟨c1, cs1⟩
        · rfl
        · simp only [headIs, List.head?, Option.some.injEq, decide_eq_true_eq] at hc1
          subst hc1
          simp [headIs]
      exact ⟨by simp [hb1], by simp [hb2], hd, hq, hb⟩
    · simp only [dollarLiteralAt, if_neg hc1, decide_eq_true_eq] at h
      push_neg at h
      have hc1f : headIs cs '$' = false := by
        cases hv : headIs cs '$'
        · rfl
        · exact absurd hv hc1
      exact ⟨by simp [hc1f], by simp [hc1f], Bool.eq_false_iff.mpr h.1,
        Bool.eq_false_iff.mpr h.2.1, Bool.eq_false_iff.mpr h.2.2⟩
  obtain ⟨hn1, hn2, hn3, hn4, hn5⟩ := hfive
  have key : interpF (cs.length + 1 + 1) env st ln ('$' :: cs) =
      contMap ['$'] (interpF (cs.length + 1) env st ln cs) := by
    simp [interpF, hn1, hn2, hn3, hn4, hn5]
  rw [interpolate]
  simp only [List.length_cons]
  rw [key, interpF_eq_interpolate _ env st ln cs (by omega)]
  cases hres : interpolate env st ln cs with
  | error e => simp [contMap, hres, Except.map]
  | ok r => simp [contMap, hres, Except.map]

theorem evp_brace_free : ∀ (t : Str) (r : Str),
    (∀ c ∈ t, c ≠ '\x7b' ∧ c ≠ '\x7d') →
    evp (t ++ '\x7d' :: r) 1 = some (t, r) := by
  intro t
  induction t with
  | nil =>
    intro r _
    simp [evp]
  | cons c cs ih =>
    intro r h
    have hc := h c (by simp)
    have ih2 := ih r (fun x hx => h x (by simp [hx]))
    simp [evp, hc.1, hc.2, ih2]

theorem isPrefixOf_append (l t : Str) : l.isPrefixOf (l ++ t) = true := by
  induction l with
  | nil => simp [List.isPrefixOf]
  | cons a l ih => simp [List.isPrefixOf, ih]

/-- One scanning step of `interp_internal` on a `${...}` occurrence whose
expression extracts, interpolates and dispatches as given. -/
theorem interpF_braceStep (fuel : Nat) (env : Env) (st : Store) (ln : Nat) (t : Str)
    (expr after : Str) (hevp : extract_var_expr t = some (expr, after))
    (ie : Str) (hie : interpF fuel env st ln expr = some (.ok ie))
    (out : Str) (hd : dispatchExpr env st ln ie = .ok out) :
    interpF (fuel + 1) env st ln ('$' :: '\x7b' :: t) =
      contMap out (interpF fuel env st ln after) := by
  simp [interpF, headIs, headDigit, isDigitC, hevp, hie, hd]

/-- The dispatch of an already-interpolated `#len(X)` expression hands the
parenthesised text to the length intrinsic and renders in decimal. -/
theorem dispatch_len (env : Env) (st : Store) (ln : Nat) (X : Str) :
    dispatchExpr env st ln (lc "#len(" ++ (X ++ [')'])) =
      .ok (natToDec (lenIntrinsic env st X)) := by
  have hie : lc "#len(" ++ (X ++ [')']) = '#' :: (lc "len(" ++ (X ++ [')'])) := rfl
  have hall : (lc "#len(" ++ (X ++ [')'])).all isDigitC = false := by
    rw [hie]
    simp [List.all_cons, isDigitC]
  have hargv : ¬ (lc "#len(" ++ (X ++ [')'])) = lc "argv" := by
    intro heq
    rw [hie, show lc "argv" = 'a' :: lc "rgv" from rfl] at heq
    simp at heq
  have hpre : (lc "#len(").isPrefixOf (lc "#len(" ++ (X ++ [')'])) = true :=
    isPrefixOf_append (lc "#len(") (X ++ [')'])
  have hlast : (lc "#len(" ++ (X ++ [')'])).getLast? = some ')' := by
    rw [show lc "#len(" ++ (X ++ [')']) = (lc "#len(" ++ X) ++ [')'] from
      (List.append_assoc _ _ _).symm]
    exact List.getLast?_concat _
  have hdrop : (lc "#len(" ++ (X ++ [')'])).drop 5 = X ++ [')'] := by
    have h5 : (5 : Nat) = (lc "#len(").length := rfl
    rw [h5, List.drop_left]
  unfold dispatchExpr
  rw [if_neg (by intro h; rw [hall] at h; exact Bool.noConfusion h.2),
    if_neg hargv, if_pos ⟨hpre, hlast⟩, hdrop, List.dropLast_concat]

/-- C6: Interpolating `${#len(X)}` (for a literal `X` without `$` or
braces) renders in decimal: the argument count when `X` is the literal
`argv`; the element count when `X` names an array variable; the byte
length when `X` names a string variable; `1` for any other defined
variable; `0` when `X` is undefined — and scanning continues with the rest
of the template. -/
theorem c6_len_interp (env : Env) (st : Store) (ln : Nat) (X rest : Str)
    (hX : ∀ c ∈ X, c ≠ '$' ∧ c ≠ '\x7b' ∧ c ≠ '\x7d') :
    interpolate env st ln
        ('$' :: '\x7b' :: ((lc "#len(" ++ (X ++ [')'])) ++ '\x7d' :: rest)) =
      (interpolate env st ln rest).map
        (fun r => natToDec
          (if X = lc "argv" then env.argv.length
           else match vars_get st.vars X with
             | some (Variable.arr items) => items.length
             | some (Variable.str s) => s.length
             | some _ => 1
             | none => 0) ++ r) := by
  have hlen_eq : lenIntrinsic env st X =
      (if X = lc "argv" then env.argv.length
       else match vars_get st.vars X with
         | some (Variable.arr items) => items.length
         | some (Variable.str s) => s.length
         | some _ => 1
         | none => 0) := by
    by_cases hA : X = lc "argv"
    · simp [lenIntrinsic, hA]
    · cases hv : vars_get st.vars X with
      | none => simp [lenIntrinsic, hA, hv]
      | some v => cases v <;> simp [lenIntrinsic, hA, hv]
  have hdf : ∀ c ∈ lc "#len(" ++ (X ++ [')']), c ≠ '$' := by
    intro c hc
    rcases List.mem_append.mp hc with h1 | h1
    · exact (by decide : ∀ x ∈ lc "#len(", x ≠ '$') c h1
    · rcases List.mem_append.mp h1 with h2 | h2
      · exact (hX c h2).1
      · simp only [List.mem_singleton] at h2
        subst h2
        decide
  have hbf : ∀ c ∈ lc "#len(" ++ (X ++ [')']), c ≠ '\x7b' ∧ c ≠ '\x7d' := by
    intro c hc
    rcases List.mem_append.mp hc with h1 | h1
    · exact (by decide : ∀ x ∈ lc "#len(", x ≠ '\x7b' ∧ x ≠ '\x7d') c h1
    · rcases List.mem_append.mp h1 with h2 | h2
      · exact ⟨(hX c h2).2.1, (hX c h2).2.2⟩
      · simp only [List.mem_singleton] at h2
        subst h2
        exact ⟨by decide, by decide⟩
  have hevp : extract_var_expr ((lc "#len(" ++ (X ++ [')'])) ++ '\x7d' :: rest) =
      some (lc "#len(" ++ (X ++ [')']), rest) :=
    evp_brace_free _ rest hbf
  have hinner : interpF (((lc "#len(" ++ (X ++ [')'])) ++ '\x7d' :: rest).length + 1 + 1)
      env st ln (lc "#len(" ++ (X ++ [')'])) =
      some (.ok (lc "#len(" ++ (X ++ [')']))) :=
    interpF_no_dollar _ env st ln _
      (by simp only [List.length_append, List.length_cons]; omega) hdf
  rw [interpolate]
  simp only [List.length_cons]
  rw [interpF_braceStep _ env st ln _ _ _ hevp _ hinner _ (dispatch_len env st ln X)]
  rw [interpF_eq_interpolate _ env st ln rest
    (by simp only [List.length_append, List.length_cons]; omega)]
  cases hres : interpolate env st ln rest with
  | error e => simp [contMap, hres, Except.map]
  | ok r => simp [contMap, hres, Except.map, hlen_eq]

/-- A store holding a three-element array variable `xs`, for the C6 witness. -/
def stArr : Store :=
  ⟨[(lc "xs", Variable.arr [Variable.str (lc "a"), Variable.num 2, Variable.vbool true])],
    [], 0, none, lc "/root", []⟩

theorem c6_len_interp_witness :
    (∀ c ∈ lc "xs", c ≠ '$' ∧ c ≠ '\x7b' ∧ c ≠ '\x7d') ∧
      interpolate envW stArr 1
          ('$' :: '\x7b' :: ((lc "#len(" ++ (lc "xs" ++ [')'])) ++ '\x7d' :: lc " rest")) =
        .ok (lc "3 rest") := by
  refine ⟨by decide, ?_⟩
  rw [c6_len_interp envW stArr 1 (lc "xs") (lc " rest") (by decide)]
  rw [interp_no_dollar_id envW stArr 1 (lc " rest") (by decide)]
  rfl

theorem apply_one_attr_cwd (env : Env) (a : CmdAttrs × Store) (attr : Str × List Str) :
    (apply_one_attr env a attr).2.cwd = a.2.cwd := by
  simp only [apply_one_attr]
  repeat' split
  all_goals rfl

theorem foldl_attr_cwd (env : Env) : ∀ (pending : List (Str × List Str)) (a : CmdAttrs × Store),
    ((pending.foldl (apply_one_attr env) a).2).cwd = a.2.cwd := by
  intro pending
  induction pending with
  | nil => intro a; rfl
  | cons hd tl ih =>
    intro a
    rw [List.foldl_cons, ih (apply_one_attr env a hd), apply_one_attr_cwd]

theorem apply_pending_attrs_cwd (env : Env) (pending : List (Str × List Str)) (st : Store) :
    ((apply_pending_attrs env pending st).2).cwd = st.cwd :=
  foldl_attr_cwd env pending (cmd_attrs_init, st)

/-- The spawn and restore phases of `exec_command` leave the working
directory of the state exactly where the call found it, on every path. -/
theorem exec_command_cwd (env : Env) (s : S) (raw_cmd : Str) (ln : Nat) :
    (exec_command env s raw_cmd ln).2.st.cwd = s.st.cwd := by
  have hap := apply_pending_attrs_cwd env s.ctx.pending_attrs s.st
  simp only [exec_command]
  cases hi : interpolate env s.st ln raw_cmd with
  | error e => rfl
  | ok cmd =>
    simp only []
    by_cases hdry : s.ctx.dry_run = true
    · rw [if_pos hdry]
      simpa using hap
    · rw [if_neg hdry]
      cases hatt : (apply_pending_attrs env s.ctx.pending_attrs s.st).1.cwd with
      | some p =>
        simp only [hatt]
        simpa using hap
      | none =>
        simp only [hatt]
        cases huse : (if (apply_pending_attrs env s.ctx.pending_attrs s.st).1.use_system_shell
            then none
            else match (apply_pending_attrs env s.ctx.pending_attrs s.st).1.shell with
              | some sh => some sh
              | none => (apply_pending_attrs env s.ctx.pending_attrs s.st).2.globalShell) with
        | some sh =>
          simp only [huse]
          cases hss : (apply_pending_attrs env s.ctx.pending_attrs s.st).1.save_stream with
          | some str1 =>
            cases hsv : (apply_pending_attrs env s.ctx.pending_attrs s.st).1.save_var with
            | some v1 => simp only [hss, hsv]; simpa using hap
            | none => simp only [hss, hsv]; simpa using hap
          | none => simp only [hss]; simpa using hap
        | none =>
          simp only [huse]
          simpa using hap

/-- C4: For every command executed with a `#cwd(PATH)` attribute pending,
the working directory of the state after `exec_command` returns equals the
working directory before the call, on every exit path: interpolation
failure, dry run, command failure, expect mismatch, and spawn failure
(the theorem holds for every oracle environment, hence for failing spawns
too). -/
theorem c4_cwd_restored (env : Env) (s : S) (raw_cmd : Str) (ln : Nat) (path : Str)
    (_hmem : (lc "cwd", [path]) ∈ s.ctx.pending_attrs) :
    (exec_command env s raw_cmd ln).2.st.cwd = s.st.cwd :=
  exec_command_cwd env s raw_cmd ln

/-- A state with a pending `#cwd(/tmp)` attribute, for the C4 witness. -/
def sC4 : S :=
  ⟨⟨[], [], 0, none, lc "/home", []⟩, none,
    ⟨false, none, 0, [], -1, [(lc "cwd", [lc "/tmp"])]⟩⟩

theorem c4_cwd_restored_witness :
    (lc "cwd", [lc "/tmp"]) ∈ sC4.ctx.pending_attrs ∧
      (exec_command envW sC4 (lc "make all") 1).2.st.cwd = sC4.st.cwd :=
  ⟨by decide, c4_cwd_restored envW sC4 (lc "make all") 1 (lc "/tmp") (by decide)⟩

/-- An oracle environment whose spawned children exit normally with
status 7, for the C1 counterexample. -/
def envC1 : Env :=
  ⟨[], fun _ => none, fun _ => none, fun _ => false,
    fun _ => ⟨true, 7⟩, fun _ => ⟨true, 7⟩, fun _ => none,
    OSPlat.linux, lc "x86_64", lc "debian", 1⟩

/-- A state whose global shell is `sh` (so the nob shell path runs), with
no pending attributes and dry-run off, for the C1 counterexample. -/
def sC1 : S :=
  ⟨⟨[], [], 0, some (lc "sh"), lc "/root", []⟩, none,
    ⟨false, none, 0, [], -1, []⟩⟩

/-- C1 counterexample: on the shell path the child exits with status 7,
yet `exec_command` records last exit code 1, not 7 — the spec sentence
that `$?` equals the child's exit status fails for shell-path commands. -/
theorem c1_counterexample :
    sC1.ctx.dry_run = false ∧
    (envC1.runCmd (resolveArgv envC1 (lc "sh") (lc "exit 7"))).status = 7 ∧
    (exec_command envC1 sC1 (lc "exit 7") 1).2.st.lastExit = 1 ∧
    ¬ ((exec_command envC1 sC1 (lc "exit 7") 1).2.st.lastExit =
        ((envC1.runCmd (resolveArgv envC1 (lc "sh") (lc "exit 7"))).status : Int)) := by
  refine ⟨rfl, rfl, ?_, ?_⟩ <;> decide

/-- C1 (amended): after a non-dry-run command whose interpolation
succeeds, the last-exit-code slot holds: on the shell path (a per-command
or global shell is in effect), 0 when the nob spawn reported success and 1
otherwise — the child's actual exit status is collapsed; on the
`system()` path, the child's decoded exit status, or -1 when the child
did not exit normally. -/
theorem c1_exit_code (env : Env) (s : S) (raw_cmd : Str) (ln : Nat) (cmd : Str)
    (attrs : CmdAttrs) (st1 : Store)
    (hok : interpolate env s.st ln raw_cmd = .ok cmd)
    (hdry : s.ctx.dry_run = false)
    (hap : apply_pending_attrs env s.ctx.pending_attrs s.st = (attrs, st1)) :
    (exec_command env s raw_cmd ln).2.st.lastExit =
      (match (if attrs.use_system_shell then none
              else match attrs.shell with
                | some sh => some sh
                | none => st1.globalShell : Option Str) with
       | some sh =>
         if (env.runCmd (resolveArgv env sh cmd)).exited
             && decide ((env.runCmd (resolveArgv env sh cmd)).status = 0) then (0 : Int) else 1
       | none =>
         if (env.sysCmd cmd).exited then ((env.sysCmd cmd).status : Int) else -1) := by
  simp only [exec_command, hok, hap, hdry]
  cases hatt : attrs.cwd with
  | some p =>
    simp only [hatt]
    cases huse : (if attrs.use_system_shell then none
        else match attrs.shell with
          | some sh => some sh
          | none => st1.globalShell : Option Str) with
    | some sh =>
      simp only [huse]
      cases hss : attrs.save_stream with
      | some str1 =>
        cases hsv : attrs.save_var with
        | some v1 => simp only [hss, hsv]; rfl
        | none => simp only [hss, hsv]; rfl
      | none => simp only [hss]; rfl
    | none => simp only [huse]; rfl
  | none =>
    simp only [hatt]
    cases huse : (if attrs.use_system_shell then none
        else match attrs.shell with
          | some sh => some sh
          | none => st1.globalShell : Option Str) with
    | some sh =>
      simp only [huse]
      cases hss : attrs.save_stream with
      | some str1 =>
        cases hsv : attrs.save_var with
        | some v1 => simp only [hss, hsv]; rfl
        | none => simp only [hss, hsv]; rfl
      | none => simp only [hss]; rfl
    | none => simp only [huse]; rfl

theorem c1_exit_code_witness :
    interpolate envC1 sC1.st 1 (lc "exit 7") = .ok (lc "exit 7") ∧
    sC1.ctx.dry_run = false ∧
    apply_pending_attrs envC1 sC1.ctx.pending_attrs sC1.st = (cmd_attrs_init, sC1.st) ∧
    (exec_command envC1 sC1 (lc "exit 7") 1).2.st.lastExit =
      (match (if cmd_attrs_init.use_system_shell then none
              else match cmd_attrs_init.shell with
                | some sh => some sh
                | none => sC1.st.globalShell : Option Str) with
       | some sh =>
         if (envC1.runCmd (resolveArgv envC1 sh (lc "exit 7"))).exited
             && decide ((envC1.runCmd (resolveArgv envC1 sh (lc "exit 7"))).status = 0)
         then (0 : Int) else 1
       | none =>
         if (envC1.sysCmd (lc "exit 7")).exited
         then ((envC1.sysCmd (lc "exit 7")).status : Int) else -1) :=
  ⟨rfl, rfl, rfl,
    c1_exit_code envC1 sC1 (lc "exit 7") 1 (lc "exit 7") cmd_attrs_init sC1.st rfl rfl rfl⟩

/-- A state whose variable `x` is the number 1 (defined, not an array),
for the C5 counterexample. -/
def sC5 : S :=
  ⟨⟨[(lc "x", Variable.num 1)], [], 0, none, lc "/root", []⟩, none,
    ⟨false, none, 0, [], -1, []⟩⟩

/-- C5 counterexample: index-assigning the unparseable value `@` to the
defined non-array variable `x` records a Syntax error from `parse_value`
(which runs before the array type check), not the RuntimeError the spec
sentence promises for a non-array target; the variable is unchanged. -/
theorem c5_counterexample :
    vars_get sC5.st.vars (lc "x") = some (Variable.num 1) ∧
    (∀ items, Variable.num 1 ≠ Variable.arr items) ∧
    execGo 1 envW [] (.stmt ⟨.sIndexAssign (lc "x") (lc "0") (lc "@"), 0, 1⟩ 0) sC5 =
      some (false, {sC5 with err := some ⟨.syn, lc "Invalid value", 1⟩}) ∧
    EKind.syn ≠ EKind.runtime :=
  ⟨rfl, fun _ h => Variable.noConfusion h, rfl, fun h => EKind.noConfusion h⟩

/-- C5 (amended): an IndexAssign statement interpolates the index and the
value first; an undefined target raises a RuntimeError; then the value is
parsed, and a parse failure surfaces that error (a Syntax error for
malformed literals) with the variable unchanged — this happens before the
array type check; only when parsing succeeds does a non-array target raise
the RuntimeError, again leaving the variable unchanged; an array target is
grown with empty-string elements to cover the index and the element is
replaced with the parsed value. -/
theorem c5_index_assign (env : Env) (ast : AST) (s : S)
    (name index value idxStr valStr : Str) (ind : Int) (ln k fuel : Nat)
    (hpend : s.ctx.pending_attrs = [])
    (hidx : interpolate env s.st ln index = .ok idxStr)
    (hval : interpolate env s.st ln value = .ok valStr) :
    execGo (fuel + 1) env ast (.stmt ⟨.sIndexAssign name index value, ind, ln⟩ k) s =
      (match vars_get s.st.vars name with
       | none =>
         some (false, {s with err := some ⟨.runtime, lc "Undefined variable: " ++ name, ln⟩})
       | some var =>
         match parse_value s.st.vars ln valStr with
         | none => none
         | some (.error e) => some (false, {s with err := some e})
         | some (.ok new_val) =>
           match var with
           | .arr items =>
             some (true, {s with
               st := {s.st with vars := vars_set s.st.vars name (.arr
                 (if toSizeT (atollModel idxStr) < items.length
                  then items.set (toSizeT (atollModel idxStr)) new_val
                  else (items ++ List.replicate
                      (toSizeT (atollModel idxStr) + 1 - items.length) (Variable.str [])).set
                    (toSizeT (atollModel idxStr)) new_val))},
               ctx := {s.ctx with pending_attrs := []}})
           | _ => some (false, {s with err := some ⟨.runtime, lc "Cannot index assign to non-array variable " ++ name, ln⟩})) := by
  simp only [execGo]
  rw [if_neg (by simp [hpend])]
  simp only [hidx, hval]

/-- A state whose variable `a` is a one-element array, for the C5 witness. -/
def sC5b : S :=
  ⟨⟨[(lc "a", Variable.arr [Variable.str (lc "x")])], [], 0, none, lc "/root", []⟩, none,
    ⟨false, none, 0, [], -1, []⟩⟩

/-- The array value and final state the C5 witness expects. -/
def arrC5 : Variable :=
  Variable.arr [Variable.str (lc "x"), Variable.str [], Variable.str (lc "hi")]

def sC5bOut : S :=
  {sC5b with st := {sC5b.st with vars := vars_set sC5b.st.vars (lc "a") arrC5},
             ctx := {sC5b.ctx with pending_attrs := []}}

theorem c5_index_assign_witness :
    sC5b.ctx.pending_attrs = [] ∧
    interpolate envW sC5b.st 3 (lc "2") = .ok (lc "2") ∧
    interpolate envW sC5b.st 3 (lc "\"hi\"") = .ok (lc "\"hi\"") ∧
    execGo 5 envW [] (.stmt ⟨.sIndexAssign (lc "a") (lc "2") (lc "\"hi\""), 0, 3⟩ 0) sC5b =
      some (true, sC5bOut) := by
  refine ⟨rfl, rfl, rfl, ?_⟩
  rw [c5_index_assign envW [] sC5b (lc "a") (lc "2") (lc "\"hi\"") (lc "2") (lc "\"hi\"")
    0 3 0 4 rfl rfl rfl]
  rfl

/-- C2: the attribute-prefix path of `parse` appends the Attr statement
without ever assigning its line number, which stays at the zero the
allocation left there — refuting the claimed invariant that every parsed
statement has `line_number ≥ 1` (the indent bound and source order do hold
on this input; the attribute below sits at line 1 yet reports 0). -/
theorem c2_attr_line_number_zero :
    parse [lc "#cwd(/tmp)"] = some ([⟨.sAttr (lc "cwd") [lc "/tmp"], 0, 0⟩], none) ∧
    (⟨SData.sAttr (lc "cwd") [lc "/tmp"], 0, 0⟩ : Stmt).line_number < 1 :=
  ⟨rfl, by decide⟩

theorem c10_literal_dollar_witness :
    dollarLiteralAt (lc "name more") = true ∧
      interpolate envW stW 1 ('$' :: lc "name more") = .ok ('$' :: lc "name more") := by
  refine ⟨by decide, ?_⟩
  rw [c10_literal_dollar envW stW 1 (lc "name more") (by decide)]
  rw [interp_no_dollar_id envW stW 1 (lc "name more") (by decide)]
  rfl

/-- The skip test of one `register_all_labels` step: the immediate
predecessor is a conditional attribute whose predicate, checked with the
current statement's index as line, is false. -/
def skipB (env : Env) (st : Store) (prev : Option Stmt) (i : Nat) : Bool :=
  match prev with
  | some p =>
    match p.data with
    | .sAttr aname aparams =>
      is_conditional_attr aname && !(check_conditional_attr env st aname aparams i).1
    | _ => false
  | none => false

/-- The error-slot update of one `register_all_labels` step (a failing
`exists` interpolation in the predecessor check overwrites the slot). -/
def errB (env : Env) (st : Store) (prev : Option Stmt) (i : Nat) (e : Option Err) :
    Option Err :=
  match prev with
  | some p =>
    match p.data with
    | .sAttr aname aparams =>
      if is_conditional_attr aname then
        match (check_conditional_attr env st aname aparams i).2 with
        | some e2 => some e2
        | none => e
      else e
    | _ => e
  | none => e

/-- Spec-side description of the surviving labels: walking the enumerated
statements, a statement whose immediate predecessor is a false conditional
attribute is skipped, and the remaining top-level labels with nonempty
names survive in order. -/
def survivorsGo (env : Env) (st : Store) : List (Nat × Stmt) → Option Stmt → List (Str × Nat)
  | [], _ => []
  | (i, stm) :: rest, prev =>
    if skipB env st prev i then survivorsGo env st rest (some stm)
    else
      match stm.data with
      | .sLabel name =>
        if stm.indent_level = 0 ∧ name ≠ [] then (name, i) :: survivorsGo env st rest (some stm)
        else survivorsGo env st rest (some stm)
      | _ => survivorsGo env st rest (some stm)

def surviving_labels (env : Env) (ast : AST) (st : Store) : List (Str × Nat) :=
  survivorsGo env st ast.enum none

/-- The feature seeding `execute` performs before registration. -/
def seedStore (st0 : Store) (enabled disabled : List Str) : Store :=
  {st0 with features := disabled.foldl feature_disable (enabled.foldl feature_enable st0.features)}

theorem any_name_iff (acc : List (Str × Nat)) (name : Str) :
    acc.any (fun kv => kv.1 = name) = true ↔ name ∈ acc.map Prod.fst := by
  simp [List.any_eq_true, List.mem_map]

theorem registerGo_cons (env : Env) (st : Store) (i : Nat) (stm : Stmt)
    (rest : List (Nat × Stmt)) (prev : Option Stmt) (acc : List (Str × Nat)) (e : Option Err) :
    registerGo env st ((i, stm) :: rest) prev acc e =
      if skipB env st prev i then
        registerGo env st rest (some stm) acc (errB env st prev i e)
      else
        match stm.data with
        | .sLabel name =>
          if stm.indent_level = 0 ∧ name ≠ [] then
            match ctx_register_label acc name i with
            | .error e2 => (none, some e2)
            | .ok acc2 => registerGo env st rest (some stm) acc2 (errB env st prev i e)
          else registerGo env st rest (some stm) acc (errB env st prev i e)
        | _ => registerGo env st rest (some stm) acc (errB env st prev i e) := by
  cases prev with
  | none => cases hsd : stm.data <;> simp [registerGo, skipB, errB, hsd]
  | some p =>
    cases hpd : p.data
    case sAttr aname aparams =>
      by_cases hca : is_conditional_attr aname = true
      · cases hpr : (check_conditional_attr env st aname aparams i).1 <;>
          cases he : (check_conditional_attr env st aname aparams i).2 <;>
          cases hsd : stm.data <;>
          simp [registerGo, skipB, errB, hpd, hca, hpr, he, hsd]
      · cases hsd : stm.data <;>
          simp [registerGo, skipB, errB, hpd, hca, hsd]
    all_goals cases hsd : stm.data <;> simp [registerGo, skipB, errB, hpd, hsd]

/-- The registration loop, characterized: a successful run returns exactly
the prior table extended with the surviving labels (and preserves
duplicate-freedom of the names); a failing run always carries a Runtime
error in the slot. -/
theorem registerGo_props (env : Env) (st : Store) :
    ∀ (l : List (Nat × Stmt)) (prev : Option Stmt) (acc : List (Str × Nat)) (e : Option Err),
      (∀ T e2, registerGo env st l prev acc e = (some T, e2) →
        T = acc ++ survivorsGo env st l prev ∧
          ((acc.map Prod.fst).Nodup → (T.map Prod.fst).Nodup)) ∧
      (∀ e2, registerGo env st l prev acc e = (none, e2) →
        ∃ er, e2 = some er ∧ er.kind = EKind.runtime) := by
  intro l
  induction l with
  | nil =>
    intro prev acc e
    constructor
    · intro T e2 h
      simp only [registerGo, Prod.mk.injEq, Option.some.injEq] at h
      obtain ⟨h1, -⟩ := h
      subst h1
      exact ⟨by simp [survivorsGo], fun hn => hn⟩
    · intro e2 h
      simp only [registerGo, Prod.mk.injEq] at h
      exact absurd h.1 (by simp)
  | cons hd rest ih =>
    obtain ⟨i, stm⟩ := hd
    intro prev acc e
    by_cases hsk : skipB env st prev i = true
    · constructor
      · intro T e2 h
        rw [registerGo_cons, if_pos hsk] at h
        have h2 := (ih (some stm) acc (errB env st prev i e)).1 T e2 h
        simpa [survivorsGo, hsk] using h2
      · intro e2 h
        rw [registerGo_cons, if_pos hsk] at h
        exact (ih (some stm) acc (errB env st prev i e)).2 e2 h
    · cases hsd : stm.data with
      | sLabel name =>
        by_cases hok : stm.indent_level = 0 ∧ name ≠ []
        · by_cases hdup : acc.any (fun kv => kv.1 = name) = true
          · constructor
            · intro T e2 h
              rw [registerGo_cons, if_neg hsk] at h
              simp only [hsd] at h
              rw [if_pos hok] at h
              simp only [ctx_register_label, if_pos hdup] at h
              exact absurd h (by simp)
            · intro e2 h
              rw [registerGo_cons, if_neg hsk] at h
              simp only [hsd] at h
              rw [if_pos hok] at h
              simp only [ctx_register_label, if_pos hdup] at h
              simp only [Prod.mk.injEq] at h
              exact ⟨_, h.2.symm, rfl⟩
          · have hfresh : ¬ name ∈ acc.map Prod.fst :=
              fun hm => hdup ((any_name_iff acc name).mpr hm)
            constructor
            · intro T e2 h
              rw [registerGo_cons, if_neg hsk] at h
              simp only [hsd] at h
              rw [if_pos hok] at h
              simp only [ctx_register_label, if_neg hdup] at h
              have h2 := (ih (some stm) (acc ++ [(name, i)]) (errB env st prev i e)).1 T e2 h
              constructor
              · rw [h2.1]
                simp [survivorsGo, hsk, hsd, hok]
              · intro hacc
                apply h2.2
                simp [List.nodup_append, hacc, hfresh]
            · intro e2 h
              rw [registerGo_cons, if_neg hsk] at h
              simp only [hsd] at h
              rw [if_pos hok] at h
              simp only [ctx_register_label, if_neg hdup] at h
              exact (ih (some stm) (acc ++ [(name, i)]) (errB env st prev i e)).2 e2 h
        · constructor
          · intro T e2 h
            rw [registerGo_cons, if_neg hsk] at h
            simp only [hsd] at h
            rw [if_neg hok] at h
            have h2 := (ih (some stm) acc (errB env st prev i e)).1 T e2 h
            simpa [survivorsGo, hsk, hsd, hok] using h2
          · intro e2 h
            rw [registerGo_cons, if_neg hsk] at h
            simp only [hsd] at h
            rw [if_neg hok] at h
            exact (ih (some stm) acc (errB env st prev i e)).2 e2 h
      | sAttr a1 a2 =>
        (constructor
         · intro T e2 h
           rw [registerGo_cons, if_neg hsk] at h
           simp only [hsd] at h
           have h2 := (ih (some stm) acc (errB env st prev i e)).1 T e2 h
           simpa [survivorsGo, hsk, hsd] using h2
         · intro e2 h
           rw [registerGo_cons, if_neg hsk] at h
           simp only [hsd] at h
           exact (ih (some stm) acc (errB env st prev i e)).2 e2 h)
      | sVarAssign a1 a2 =>
        (constructor
         · intro T e2 h
           rw [registerGo_cons, if_neg hsk] at h
           simp only [hsd] at h
           have h2 := (ih (some stm) acc (errB env st prev i e)).1 T e2 h
           simpa [survivorsGo, hsk, hsd] using h2
         · intro e2 h
           rw [registerGo_cons, if_neg hsk] at h
           simp only [hsd] at h
           exact (ih (some stm) acc (errB env st prev i e)).2 e2 h)
      | sIndexAccess a1 a2 =>
        (constructor
         · intro T e2 h
           rw [registerGo_cons, if_neg hsk] at h
           simp only [hsd] at h
           have h2 := (ih (some stm) acc (errB env st prev i e)).1 T e2 h
           simpa [survivorsGo, hsk, hsd] using h2
         · intro e2 h
           rw [registerGo_cons, if_neg hsk] at h
           simp only [hsd] at h
           exact (ih (some stm) acc (errB env st prev i e)).2 e2 h)
      | sIndexAssign a1 a2 a3 =>
        (constructor
         · intro T e2 h
           rw [registerGo_cons, if_neg hsk] at h
           simp only [hsd] at h
           have h2 := (ih (some stm) acc (errB env st prev i e)).1 T e2 h
           simpa [survivorsGo, hsk, hsd] using h2
         · intro e2 h
           rw [registerGo_cons, if_neg hsk] at h
           simp only [hsd] at h
           exact (ih (some stm) acc (errB env st prev i e)).2 e2 h)
      | sCommand a1 =>
        (constructor
         · intro T e2 h
           rw [registerGo_cons, if_neg hsk] at h
           simp only [hsd] at h
           have h2 := (ih (some stm) acc (errB env st prev i e)).1 T e2 h
           simpa [survivorsGo, hsk, hsd] using h2
         · intro e2 h
           rw [registerGo_cons, if_neg hsk] at h
           simp only [hsd] at h
           exact (ih (some stm) acc (errB env st prev i e)).2 e2 h)
      | sIf a1 =>
        (constructor
         · intro T e2 h
           rw [registerGo_cons, if_neg hsk] at h
           simp only [hsd] at h
           have h2 := (ih (some stm) acc (errB env st prev i e)).1 T e2 h
           simpa [survivorsGo, hsk, hsd] using h2
         · intro e2 h
           rw [registerGo_cons, if_neg hsk] at h
           simp only [hsd] at h
           exact (ih (some stm) acc (errB env st prev i e)).2 e2 h)
      | sElse =>
        (constructor
         · intro T e2 h
           rw [registerGo_cons, if_neg hsk] at h
           simp only [hsd] at h
           have h2 := (ih (some stm) acc (errB env st prev i e)).1 T e2 h
           simpa [survivorsGo, hsk, hsd] using h2
         · intro e2 h
           rw [registerGo_cons, if_neg hsk] at h
           simp only [hsd] at h
           exact (ih (some stm) acc (errB env st prev i e)).2 e2 h)
      | sEndif =>
        (constructor
         · intro T e2 h
           rw [registerGo_cons, if_neg hsk] at h
           simp only [hsd] at h
           have h2 := (ih (some stm) acc (errB env st prev i e)).1 T e2 h
           simpa [survivorsGo, hsk, hsd] using h2
         · intro e2 h
           rw [registerGo_cons, if_neg hsk] at h
           simp only [hsd] at h
           exact (ih (some stm) acc (errB env st prev i e)).2 e2 h)
      | sGoto a1 =>
        (constructor
         · intro T e2 h
           rw [registerGo_cons, if_neg hsk] at h
           simp only [hsd] at h
           have h2 := (ih (some stm) acc (errB env st prev i e)).1 T e2 h
           simpa [survivorsGo, hsk, hsd] using h2
         · intro e2 h
           rw [registerGo_cons, if_neg hsk] at h
           simp only [hsd] at h
           exact (ih (some stm) acc (errB env st prev i e)).2 e2 h)
      | sCall a1 =>
        (constructor
         · intro T e2 h
           rw [registerGo_cons, if_neg hsk] at h
           simp only [hsd] at h
           have h2 := (ih (some stm) acc (errB env st prev i e)).1 T e2 h
           simpa [survivorsGo, hsk, hsd] using h2
         · intro e2 h
           rw [registerGo_cons, if_neg hsk] at h
           simp only [hsd] at h
           exact (ih (some stm) acc (errB env st prev i e)).2 e2 h)

/-- Indices in the surviving-label list of an enumeration starting at `m`
are at least `m`. -/
theorem survivors_ge (env : Env) (st : Store) :
    ∀ (r : List Stmt) (m : Nat) (prev : Option Stmt) (nm : Str) (i : Nat),
      (nm, i) ∈ survivorsGo env st (List.enumFrom m r) prev → m ≤ i := by
  intro r
  induction r with
  | nil => intro m prev nm i h; simp [survivorsGo] at h
  | cons q rest ih =>
    intro m prev nm i h
    simp only [List.enumFrom] at h
    simp only [survivorsGo] at h
    by_cases hsk : skipB env st prev m = true
    · rw [if_pos hsk] at h
      exact Nat.le_of_succ_le (ih (m + 1) (some q) nm i h)
    · rw [if_neg hsk] at h
      cases hq : q.data with
      | sLabel name =>
        simp only [hq] at h
        by_cases hok : q.indent_level = 0 ∧ name ≠ []
        · rw [if_pos hok] at h
          rcases List.mem_cons.mp h with h1 | h1
          · have h2 := (Prod.mk.injEq _ _ _ _).mp h1
            omega
          · exact Nat.le_of_succ_le (ih (m + 1) (some q) nm i h1)
        · rw [if_neg hok] at h
          exact Nat.le_of_succ_le (ih (m + 1) (some q) nm i h)
      | sAttr a1 a2 =>
        simp only [hq] at h
        exact Nat.le_of_succ_le (ih (m + 1) (some q) nm i h)
      | sVarAssign a1 a2 =>
        simp only [hq] at h
        exact Nat.le_of_succ_le (ih (m + 1) (some q) nm i h)
      | sIndexAccess a1 a2 =>
        simp only [hq] at h
        exact Nat.le_of_succ_le (ih (m + 1) (some q) nm i h)
      | sIndexAssign a1 a2 a3 =>
        simp only [hq] at h
        exact Nat.le_of_succ_le (ih (m + 1) (some q) nm i h)
      | sCommand a1 =>
        simp only [hq] at h
        exact Nat.le_of_succ_le (ih (m + 1) (some q) nm i h)
      | sIf a1 =>
        simp only [hq] at h
        exact Nat.le_of_succ_le (ih (m + 1) (some q) nm i h)
      | sElse =>
        simp only [hq] at h
        exact Nat.le_of_succ_le (ih (m + 1) (some q) nm i h)
      | sEndif =>
        simp only [hq] at h
        exact Nat.le_of_succ_le (ih (m + 1) (some q) nm i h)
      | sGoto a1 =>
        simp only [hq] at h
        exact Nat.le_of_succ_le (ih (m + 1) (some q) nm i h)
      | sCall a1 =>
        simp only [hq] at h
        exact Nat.le_of_succ_le (ih (m + 1) (some q) nm i h)

/-- A statement whose immediate predecessor (at position `k` in the list)
is a conditional attribute with a false predicate contributes no surviving
label at its index. -/
theorem survivors_skip (env : Env) (st : Store) :
    ∀ (r : List Stmt) (n : Nat) (prev : Option Stmt) (k : Nat) (p stm : Stmt)
      (aname : Str) (aparams : List Str) (nm : Str),
      r.get? k = some p → r.get? (k + 1) = some stm →
      p.data = .sAttr aname aparams →
      is_conditional_attr aname = true →
      (check_conditional_attr env st aname aparams (n + k + 1)).1 = false →
      (nm, n + k + 1) ∉ survivorsGo env st (List.enumFrom n r) prev := by
  intro r
  induction r with
  | nil =>
    intro n prev k p stm aname aparams nm h1
    simp at h1
  | cons q rest ih =>
    intro n prev k p stm aname aparams nm h1 h2 hpd hca hcf hmem
    cases k with
    | zero =>
      simp only [List.get?] at h1 h2
      have hqp : q = p := by injection h1
      subst hqp
      simp only [Nat.add_zero] at hcf hmem
      cases rest with
      | nil => simp at h2
      | cons w rest2 =>
        have hw : w = stm := by simpa using h2
        subst hw
        simp only [List.enumFrom, survivorsGo, hpd, ite_self] at hmem
        have hsk1 : skipB env st (some q) (n + 1) = true := by
          simp [skipB, hpd, hca, hcf]
        rw [if_pos hsk1] at hmem
        have := survivors_ge env st rest2 (n + 2) (some w) nm (n + 1) hmem
        omega
    | succ k2 =>
      simp only [List.get?] at h1 h2
      have harith : n + (k2 + 1) + 1 = n + 1 + k2 + 1 := by omega
      rw [harith] at hcf hmem
      simp only [List.enumFrom, survivorsGo] at hmem
      by_cases hsk0 : skipB env st prev n = true
      · rw [if_pos hsk0] at hmem
        exact ih (n + 1) (some q) k2 p stm aname aparams nm h1 h2 hpd hca hcf hmem
      · rw [if_neg hsk0] at hmem
        cases hq : q.data with
        | sLabel name =>
          simp only [hq] at hmem
          by_cases hok : q.indent_level = 0 ∧ name ≠ []
          · rw [if_pos hok] at hmem
            rcases List.mem_cons.mp hmem with h3 | h3
            · have h4 := (Prod.mk.injEq _ _ _ _).mp h3
              omega
            · exact ih (n + 1) (some q) k2 p stm aname aparams nm h1 h2 hpd hca hcf h3
          · rw [if_neg hok] at hmem
            exact ih (n + 1) (some q) k2 p stm aname aparams nm h1 h2 hpd hca hcf hmem
        | sAttr a1 a2 =>
          simp only [hq] at hmem
          exact ih (n + 1) (some q) k2 p stm aname aparams nm h1 h2 hpd hca hcf hmem
        | sVarAssign a1 a2 =>
          simp only [hq] at hmem
          exact ih (n + 1) (some q) k2 p stm aname aparams nm h1 h2 hpd hca hcf hmem
        | sIndexAccess a1 a2 =>
          simp only [hq] at hmem
          exact ih (n + 1) (some q) k2 p stm aname aparams nm h1 h2 hpd hca hcf hmem
        | sIndexAssign a1 a2 a3 =>
          simp only [hq] at hmem
          exact ih (n + 1) (some q) k2 p stm aname aparams nm h1 h2 hpd hca hcf hmem
        | sCommand a1 =>
          simp only [hq] at hmem
          exact ih (n + 1) (some q) k2 p stm aname aparams nm h1 h2 hpd hca hcf hmem
        | sIf a1 =>
          simp only [hq] at hmem
          exact ih (n + 1) (some q) k2 p stm aname aparams nm h1 h2 hpd hca hcf hmem
        | sElse =>
          simp only [hq] at hmem
          exact ih (n + 1) (some q) k2 p stm aname aparams nm h1 h2 hpd hca hcf hmem
        | sEndif =>
          simp only [hq] at hmem
          exact ih (n + 1) (some q) k2 p stm aname aparams nm h1 h2 hpd hca hcf hmem
        | sGoto a1 =>
          simp only [hq] at hmem
          exact ih (n + 1) (some q) k2 p stm aname aparams nm h1 h2 hpd hca hcf hmem
        | sCall a1 =>
          simp only [hq] at hmem
          exact ih (n + 1) (some q) k2 p stm aname aparams nm h1 h2 hpd hca hcf hmem

/-- C3: during label registration before execution begins, (a) a top-level
label immediately preceded by a conditional attribute (the code's
conditional-attribute set, which contains windows, linux, macos, darwin,
unix, arch, distro, feature, env and exists) whose predicate is false is
not registered — no table entry carries that statement's index; and (b) if
two surviving labels share a name, registration fails with a Runtime error
and `execute` returns failure with the feature-seeded store untouched — no
statement has run (no command trace, variables, exit code or working
directory change). -/
theorem c3_label_registration :
    (∀ (env : Env) (st : Store) (ast : AST) (k : Nat) (p stm : Stmt)
        (T : List (Str × Nat)) (e2 : Option Err) (aname : Str) (aparams : List Str) (nm : Str),
        ast.get? k = some p → ast.get? (k + 1) = some stm →
        p.data = .sAttr aname aparams →
        is_conditional_attr aname = true →
        (check_conditional_attr env st aname aparams (k + 1)).1 = false →
        register_all_labels env ast st = (some T, e2) →
        (nm, k + 1) ∉ T) ∧
    (∀ (fuel : Nat) (env : Env) (ast : AST) (label : Option Str) (dry_run : Bool)
        (shell : Option Str) (enabled disabled : List Str) (st0 : Store),
        ¬ ((surviving_labels env ast (seedStore st0 enabled disabled)).map Prod.fst).Nodup →
        ∃ er, er.kind = EKind.runtime ∧
          executeModel fuel env ast label dry_run shell enabled disabled st0 =
            some (false, ⟨seedStore st0 enabled disabled, some er,
              ⟨dry_run, shell, 0, [], -1, []⟩⟩)) := by
  constructor
  · intro env st ast k p stm T e2 aname aparams nm h1 h2 hpd hca hcf hreg hmem
    simp only [register_all_labels] at hreg
    have hT := ((registerGo_props env st ast.enum none [] none).1 T e2 hreg).1
    rw [hT] at hmem
    simp only [List.nil_append] at hmem
    have henum : ast.enum = List.enumFrom 0 ast := rfl
    rw [henum] at hmem
    have hk : 0 + k + 1 = k + 1 := by omega
    rw [← hk] at hmem hcf
    exact survivors_skip env st ast 0 none k p stm aname aparams nm h1 h2 hpd hca hcf hmem
  · intro fuel env ast label dry_run shell enabled disabled st0 hdup
    rcases hreg : register_all_labels env ast (seedStore st0 enabled disabled) with ⟨o, e⟩
    have hreg2 := hreg
    simp only [register_all_labels] at hreg2
    cases o with
    | some T =>
      exfalso
      have hprops := (registerGo_props env (seedStore st0 enabled disabled)
        ast.enum none [] none).1 T e hreg2
      have hnd := hprops.2 (by simp)
      rw [hprops.1] at hnd
      simp only [List.nil_append] at hnd
      exact hdup (by simpa [surviving_labels] using hnd)
    | none =>
      obtain ⟨er, rfl, hkind⟩ := (registerGo_props env (seedStore st0 enabled disabled)
        ast.enum none [] none).2 e hreg2
      refine ⟨er, hkind, ?_⟩
      simp only [seedStore] at hreg
      simp only [executeModel]
      rw [hreg]
      simp [seedStore]

/-- A `#windows`-guarded label (skipped on the Linux witness platform). -/
def astC3a : AST := [⟨.sAttr (lc "windows") [], 0, 0⟩, ⟨.sLabel (lc "build"), 0, 2⟩]

/-- Two top-level labels sharing the name `x`. -/
def astC3b : AST := [⟨.sLabel (lc "x"), 0, 1⟩, ⟨.sLabel (lc "x"), 0, 2⟩]

theorem c3_label_registration_witness :
    (astC3a.get? 0 = some ⟨.sAttr (lc "windows") [], 0, 0⟩ ∧
     astC3a.get? 1 = some ⟨.sLabel (lc "build"), 0, 2⟩ ∧
     is_conditional_attr (lc "windows") = true ∧
     (check_conditional_attr envW stW (lc "windows") [] 1).1 = false ∧
     register_all_labels envW astC3a stW = (some [], none) ∧
     (lc "build", 1) ∉ ([] : List (Str × Nat))) ∧
    (¬ ((surviving_labels envW astC3b (seedStore stW [] [])).map Prod.fst).Nodup ∧
     ∃ er, er.kind = EKind.runtime ∧
       executeModel 3 envW astC3b none false none [] [] stW =
         some (false, ⟨seedStore stW [] [], some er, ⟨false, none, 0, [], -1, []⟩⟩)) := by
  refine ⟨⟨rfl, rfl, rfl, rfl, rfl, ?_⟩, ⟨?_, ?_⟩⟩
  · exact c3_label_registration.1 envW stW astC3a 0 _ _ [] none (lc "windows") [] (lc "build")
      rfl rfl rfl rfl rfl rfl
  · decide
  · exact c3_label_registration.2 3 envW astC3b none false none [] [] stW (by decide)
